import Mathlib

/-!
Verification of the LinkForge content-acquisition server (server.js).

Strings are modelled as lists of characters (`Str`), so that the JavaScript
string manipulations (split, toLowerCase, substring tests, regex-anchored
suffix stripping) become structurally recursive Lean functions with good
lemma support.  External primitives of the Node runtime (DNS resolution,
the base64 decoder of Buffer.from, the sha1 of the crypto module) are taken
as parameters of the definitions that use them, exactly where the source
calls out to them.
-/

set_option maxRecDepth 4000

abbrev Str := List Char

def str (s : String) : Str := s.data

def toLowerL (s : Str) : Str := s.map Char.toLower

/-- JavaScript String.prototype.split with a single-character separator:
"a..b".split(".") gives ["a","","b"], "".split(".") gives [""]. -/
def splitOnChar (c : Char) : Str → List Str
  | [] => [[]]
  | x :: xs =>
    let r := splitOnChar c xs
    if x = c then [] :: r
    else
      match r with
      | [] => [[x]]
      | h :: t => (x :: h) :: t

/-- Value of a list of decimal digits, most significant first. -/
def digitsVal (l : Str) : Nat :=
  l.foldl (fun acc c => acc * 10 + (c.toNat - 48)) 0

/-- JavaScript Number(s) restricted to the strings this program feeds it
(digit strings from hostname octets and DNS answers): all-digit strings give
their value, the empty string gives 0, anything else is NaN (none).  At its
call sites the argument is either a run of decimal digits or junk that JS
would also map to NaN or to a value the surrounding range check rejects. -/
def jsNat (l : Str) : Option Nat :=
  if l = [] then some 0
  else if l.all Char.isDigit then some (digitsVal l)
  else none

-- -----------------------
-- IP classification (src/server.js lines 95-121)
-- -----------------------

/-- isIpV4: the dotted-quad shape test /^\d\x7b1,3\x7d(\.\d\x7b1,3\x7d)\x7b3\x7d$/. -/
def isIpV4 (hostname : Str) : Bool :=
  let parts := splitOnChar '.' hostname
  parts.length = 4 &&
    parts.all (fun p => 1 ≤ p.length && p.length ≤ 3 && p.all Char.isDigit)

/-- isIpV6: hostname.includes(":"). -/
def isIpV6 (hostname : Str) : Bool := hostname.contains ':'

/-- One octet is bad when Number gives NaN or a value outside 0..255 (the
source also checks n < 0, which cannot arise from a digit string). -/
def octetBad : Option Nat → Bool
  | none => true
  | some n => 255 < n

/-- isPrivateIpV4 from the source: split on ".", map Number; any NaN or
out-of-range octet counts as private; then the range checks on the first
two octets (a missing second octet makes those comparisons false, as the
undefined comparisons do in JS). -/
def isPrivateIpV4 (ip : Str) : Bool :=
  let parts := (splitOnChar '.' ip).map jsNat
  if parts.any octetBad then true
  else
    let a := (parts.get? 0).join
    let b := (parts.get? 1).join
    a = some 10 || a = some 127 || a = some 0 ||
    (a = some 192 && b = some 168) ||
    (a = some 172 && (match b with
      | some bv => 16 ≤ bv && bv ≤ 31
      | none => false)) ||
    (a = some 169 && b = some 254)

/-- isPrivateIpV6 from the source: loopback/unspecified plus the
link-local and unique-local textual prefixes. -/
def isPrivateIpV6 (ip : Str) : Bool :=
  let v := toLowerL ip
  v = str "::" || v = str "::1" ||
  (str "fe8").isPrefixOf v || (str "fe9").isPrefixOf v ||
  (str "fea").isPrefixOf v || (str "feb").isPrefixOf v ||
  (str "fc").isPrefixOf v || (str "fd").isPrefixOf v

/-- One address returned by dns.lookup: the family tag and the textual form. -/
inductive Addr
  | v4 (a : Str)
  | v6 (a : Str)
deriving DecidableEq, Repr

/-- The DNS environment: what dns.lookup answers for a hostname; none models
the lookup throwing. -/
def DnsEnv := Str → Option (List Addr)

def addrIsPrivate : Addr → Bool
  | .v4 a => isPrivateIpV4 a
  | .v6 a => isPrivateIpV6 a

/-- resolvesToPrivateIp (src/server.js lines 124-146), for a fixed resolver.
The dnsCache memo of the source only caches the answer per hostname, which
is the identity for a fixed resolver, so it is not modelled. -/
def resolvesToPrivateIp (dns : DnsEnv) (hostname : Str) : Bool :=
  if isIpV4 hostname then isPrivateIpV4 hostname
  else if isIpV6 hostname then true
  else
    match dns hostname with
    | none => true
    | some addrs => addrs.any addrIsPrivate

-- -----------------------
-- Parsed URLs and the admission policy (src/server.js lines 159-179)
-- -----------------------

/-- A WHATWG-parsed URL as the fields the program reads: protocol includes
the trailing colon, query is the ordered searchParams list, raw is the
original text (stored by the registry). The fragment is carried so that
canonicalImageKey dropping it is visible in the model. -/
structure ParsedUrl where
  protocol : Str
  hostname : Str
  path : Str
  query : List (Str × Str)
  fragment : Str
  raw : Str
deriving DecidableEq, Repr

def blocked : Except Str Unit → Bool
  | .error _ => true
  | .ok _ => false

/-- assertUrlAllowed (src/server.js lines 159-179); none models a URL string
the WHATWG parser rejects. -/
def assertUrlAllowed (dns : DnsEnv) (u? : Option ParsedUrl) : Except Str Unit :=
  match u? with
  | none => .error (str "URL non valido")
  | some url =>
    if !(url.protocol = str "http:" || url.protocol = str "https:") then
      .error (str "Protocollo non consentito")
    else
      let host := toLowerL url.hostname
      if host = [] then .error (str "Host mancante")
      else if host = str "localhost" then .error (str "Host bloccato")
      else if isIpV6 host then .error (str "Host IPv6 bloccato")
      else if isIpV4 host && isPrivateIpV4 host then .error (str "IP privato bloccato")
      else if resolvesToPrivateIp dns host then .error (str "Host risolve a IP privato (bloccato)")
      else .ok ()

-- Spec-side classification of private/loopback/link-local addresses,
-- written from the spec text for the refinement claims C1/C10.

/-- The spec notion of a private/loopback/link-local IPv4 quad:
RFC1918 ranges, loopback 127/8, link-local 169.254/16. -/
def specPrivateQuad (a b : Nat) : Prop :=
  a = 10 ∨ a = 127 ∨ (a = 192 ∧ b = 168) ∨
  (a = 172 ∧ 16 ≤ b ∧ b ≤ 31) ∨ (a = 169 ∧ b = 254)

/-- The spec notion of a private resolved address.  For IPv6 the spec itself
(design note) fixes the conservative canonical-prefix reading used here. -/
def specPrivateAddr : Addr → Prop
  | .v4 s => ∃ a b c d, (splitOnChar '.' s).map jsNat = [some a, some b, some c, some d] ∧
      a ≤ 255 ∧ b ≤ 255 ∧ c ≤ 255 ∧ d ≤ 255 ∧ specPrivateQuad a b
  | .v6 s => isPrivateIpV6 s = true

lemma isPrivateIpV4_of_specPrivateQuad (h : Str) (a b c d : Nat)
    (hparse : (splitOnChar '.' h).map jsNat = [some a, some b, some c, some d])
    (hspec : specPrivateQuad a b) : isPrivateIpV4 h = true := by
  unfold isPrivateIpV4
  rw [hparse]
  by_cases hbad : ([some a, some b, some c, some d].any octetBad) = true
  · simp [hbad]
  · simp only [hbad, if_false]
    simp only [List.get?_eq_getElem?]
    rcases hspec with h10 | h127 | ⟨h192, h168⟩ | ⟨h172, h16, h31⟩ | ⟨h169, h254⟩ <;>
      simp_all

/-- C1: the URL admission policy.  For every parsed URL and every resolver:
(1) a scheme other than http/https is rejected; (2) any hostname containing
a colon (a literal IPv6 host) is rejected; (3) localhost is rejected;
(4) every dotted-quad literal in a private/loopback/link-local range is
rejected; (5) every hostname (not an IPv4 literal) for which some
DNS-resolved address is private/loopback/link-local is rejected. -/
theorem assertUrlAllowed_mandatory_safety (dns : DnsEnv) (u : ParsedUrl) :
    (¬(u.protocol = str "http:" ∨ u.protocol = str "https:") →
      blocked (assertUrlAllowed dns (some u)) = true) ∧
    (isIpV6 (toLowerL u.hostname) = true →
      blocked (assertUrlAllowed dns (some u)) = true) ∧
    (toLowerL u.hostname = str "localhost" →
      blocked (assertUrlAllowed dns (some u)) = true) ∧
    (∀ a b c d, isIpV4 (toLowerL u.hostname) = true →
      (splitOnChar '.' (toLowerL u.hostname)).map jsNat = [some a, some b, some c, some d] →
      specPrivateQuad a b →
      blocked (assertUrlAllowed dns (some u)) = true) ∧
    (∀ addrs a, isIpV4 (toLowerL u.hostname) = false →
      dns (toLowerL u.hostname) = some addrs → a ∈ addrs → specPrivateAddr a →
      blocked (assertUrlAllowed dns (some u)) = true) := by
  unfold assertUrlAllowed
  refine ⟨?_, ?_, ?_, ?_, ?_⟩
  · intro hp
    have : (u.protocol = str "http:" || u.protocol = str "https:") = false := by
      simp only [Bool.or_eq_false_iff, decide_eq_false_iff_not]
      exact ⟨fun h => hp (Or.inl h), fun h => hp (Or.inr h)⟩
    simp [this, blocked]
  · intro h6
    by_cases hp : (u.protocol = str "http:" || u.protocol = str "https:") = true
    · by_cases he : toLowerL u.hostname = []
      · simp [hp, he, blocked]
      · by_cases hl : toLowerL u.hostname = str "localhost"
        · simp only [hp, Bool.not_true, Bool.false_eq_true, if_false, he, hl]
          rw [if_neg (by decide : ¬(str "localhost" = ([] : Str)))]
          simp [blocked]
        · simp [hp, he, hl, h6, blocked]
    · simp [Bool.not_eq_true] at hp
      simp [hp, blocked]
  · intro hl
    by_cases hp : (u.protocol = str "http:" || u.protocol = str "https:") = true
    · have he : toLowerL u.hostname ≠ [] := by
        rw [hl]; intro hc; exact absurd hc (by decide)
      simp only [hp, Bool.not_true, Bool.false_eq_true, if_false, he, hl]
      rw [if_neg (by decide : ¬(str "localhost" = ([] : Str)))]
      simp [blocked]
    · simp [Bool.not_eq_true] at hp
      simp [hp, blocked]
  · intro a b c d h4 hparse hspec
    by_cases hp : (u.protocol = str "http:" || u.protocol = str "https:") = true
    · by_cases he : toLowerL u.hostname = []
      · simp [hp, he, blocked]
      · by_cases hl : toLowerL u.hostname = str "localhost"
        · simp only [hp, Bool.not_true, Bool.false_eq_true, if_false, he, hl]
          rw [if_neg (by decide : ¬(str "localhost" = ([] : Str)))]
          simp [blocked]
        · by_cases h6 : isIpV6 (toLowerL u.hostname) = true
          · simp [hp, he, hl, h6, blocked]
          · have hpriv := isPrivateIpV4_of_specPrivateQuad _ a b c d hparse hspec
            simp only [Bool.not_eq_true] at h6
            simp [hp, he, hl, h6, h4, hpriv, blocked]
    · simp [Bool.not_eq_true] at hp
      simp [hp, blocked]
  · intro addrs a h4 hdns hmem hspec
    by_cases hp : (u.protocol = str "http:" || u.protocol = str "https:") = true
    · by_cases he : toLowerL u.hostname = []
      · simp [hp, he, blocked]
      · by_cases hl : toLowerL u.hostname = str "localhost"
        · simp only [hp, Bool.not_true, Bool.false_eq_true, if_false, he, hl]
          rw [if_neg (by decide : ¬(str "localhost" = ([] : Str)))]
          simp [blocked]
        · by_cases h6 : isIpV6 (toLowerL u.hostname) = true
          · simp [hp, he, hl, h6, blocked]
          · have hapriv : addrIsPrivate a = true := by
              cases a with
              | v4 s =>
                obtain ⟨x, y, z, w, hps, _, _, _, _, hq⟩ := hspec
                exact isPrivateIpV4_of_specPrivateQuad s x y z w hps hq
              | v6 s => exact hspec
            have hres : resolvesToPrivateIp dns (toLowerL u.hostname) = true := by
              unfold resolvesToPrivateIp
              simp only [Bool.not_eq_true] at h6
              simp only [h4, h6, Bool.false_eq_true, if_false, hdns]
              exact List.any_eq_true.mpr ⟨a, hmem, hapriv⟩
            simp only [Bool.not_eq_true] at h6
            simp [hp, he, hl, h6, h4, hres, blocked]
    · simp [Bool.not_eq_true] at hp
      simp [hp, blocked]

def dnsRefusing : DnsEnv := fun _ => none

def dnsEvil : DnsEnv := fun h =>
  if h = str "internal.example" then some [Addr.v4 (str "10.0.0.5")] else none

theorem assertUrlAllowed_mandatory_safety_witness :
    blocked (assertUrlAllowed dnsRefusing
      (some ⟨str "ftp:", str "example.com", str "/", [], [], str "ftp://example.com/"⟩)) = true ∧
    blocked (assertUrlAllowed dnsRefusing
      (some ⟨str "http:", str "[::1]", str "/", [], [], str "http://[::1]/"⟩)) = true ∧
    blocked (assertUrlAllowed dnsRefusing
      (some ⟨str "http:", str "LocalHost", str "/", [], [], str "http://localhost/"⟩)) = true ∧
    blocked (assertUrlAllowed dnsRefusing
      (some ⟨str "http:", str "192.168.1.7", str "/", [], [], str "http://192.168.1.7/"⟩)) = true ∧
    blocked (assertUrlAllowed dnsEvil
      (some ⟨str "http:", str "internal.example", str "/", [], [], str "http://internal.example/"⟩)) = true := by
  refine ⟨?_, ?_, ?_, ?_, ?_⟩
  · exact (assertUrlAllowed_mandatory_safety dnsRefusing _).1 (by decide)
  · exact (assertUrlAllowed_mandatory_safety dnsRefusing _).2.1 (by decide)
  · exact (assertUrlAllowed_mandatory_safety dnsRefusing _).2.2.1 (by decide)
  · exact (assertUrlAllowed_mandatory_safety dnsRefusing _).2.2.2.1 192 168 1 7
      (by decide) (by decide) (by unfold specPrivateQuad; tauto)
  · exact (assertUrlAllowed_mandatory_safety dnsEvil _).2.2.2.2
      [Addr.v4 (str "10.0.0.5")] (Addr.v4 (str "10.0.0.5"))
      (by decide) (by decide) (by simp)
      (by refine ⟨10, 0, 0, 5, by decide, by decide, by decide, by decide, by decide, ?_⟩
          unfold specPrivateQuad; tauto)

/-- C10: a hostname of dotted-quad shape with an out-of-range octet is
classified private by isPrivateIpV4, so assertUrlAllowed rejects it before
and independently of DNS resolution. -/
theorem malformed_quad_rejected_without_dns (u : ParsedUrl) (p : Str)
    (hshape : isIpV4 (toLowerL u.hostname) = true)
    (hpart : p ∈ splitOnChar '.' (toLowerL u.hostname))
    (hbig : octetBad (jsNat p) = true) :
    isPrivateIpV4 (toLowerL u.hostname) = true ∧
    blocked (assertUrlAllowed dnsRefusing (some u)) = true ∧
    (∀ dns dns2 : DnsEnv,
      assertUrlAllowed dns (some u) = assertUrlAllowed dns2 (some u)) := by
  have hpriv : isPrivateIpV4 (toLowerL u.hostname) = true := by
    unfold isPrivateIpV4
    have : ((splitOnChar '.' (toLowerL u.hostname)).map jsNat).any octetBad = true :=
      List.any_eq_true.mpr ⟨jsNat p, List.mem_map_of_mem jsNat hpart, hbig⟩
    simp [this]
  have hrest : ∀ dns : DnsEnv, blocked (assertUrlAllowed dns (some u)) = true ∧
      (assertUrlAllowed dns (some u) = assertUrlAllowed dnsRefusing (some u)) := by
    intro dns
    unfold assertUrlAllowed
    by_cases hp : (u.protocol = str "http:" || u.protocol = str "https:") = true
    · by_cases he : toLowerL u.hostname = []
      · simp [hp, he, blocked]
      · by_cases hl : toLowerL u.hostname = str "localhost"
        · simp only [hp, Bool.not_true, Bool.false_eq_true, if_false, he, hl]
          rw [if_neg (by decide : ¬(str "localhost" = ([] : Str)))]
          refine ⟨by simp [blocked], ?_⟩
          rw [if_neg (by decide : ¬(str "localhost" = ([] : Str)))]
          simp
        · by_cases h6 : isIpV6 (toLowerL u.hostname) = true
          · simp [hp, he, hl, h6, blocked]
          · simp only [Bool.not_eq_true] at h6
            simp [hp, he, hl, h6, hshape, hpriv, blocked]
    · simp [Bool.not_eq_true] at hp
      simp [hp, blocked]
  refine ⟨hpriv, (hrest dnsRefusing).1, fun dns dns2 => ?_⟩
  rw [(hrest dns).2, (hrest dns2).2]

theorem malformed_quad_rejected_without_dns_witness :
    isPrivateIpV4 (toLowerL (str "999.1.1.1")) = true ∧
    blocked (assertUrlAllowed dnsRefusing
      (some ⟨str "http:", str "999.1.1.1", str "/", [], [], str "http://999.1.1.1/"⟩)) = true ∧
    (∀ dns dns2 : DnsEnv,
      assertUrlAllowed dns
        (some ⟨str "http:", str "999.1.1.1", str "/", [], [], str "http://999.1.1.1/"⟩) =
      assertUrlAllowed dns2
        (some ⟨str "http:", str "999.1.1.1", str "/", [], [], str "http://999.1.1.1/"⟩)) := by
  exact malformed_quad_rejected_without_dns
    ⟨str "http:", str "999.1.1.1", str "/", [], [], str "http://999.1.1.1/"⟩
    (str "999") (by decide) (by decide) (by decide)

-- -----------------------
-- Image keys and scores (src/server.js lines 256-368)
-- -----------------------

/-- A URL argument as the code sees it: either WHATWG-parseable or a raw
string on which new URL(...) throws (the catch branches of the source). -/
inductive UrlInput
  | parsed (u : ParsedUrl)
  | raw (s : Str)
deriving DecidableEq, Repr

def isExtChar (c : Char) : Bool := c.isAlpha || c.isDigit

/-- Split a path at its last dot: the regex lookahead (?=\.[a-z0-9]\x7b2,5\x7d$)
can only match immediately before the final extension, because the extension
class excludes the dot. -/
def lastDotSplit (p : Str) : Option (Str × Str) :=
  match p.reverse.dropWhile (fun c => c ≠ '.') with
  | '.' :: stemRev => some (stemRev.reverse, (p.reverse.takeWhile (fun c => c ≠ '.')).reverse)
  | _ => none

def extOk (e : Str) : Bool := 2 ≤ e.length && e.length ≤ 5 && e.all isExtChar

/-- Pattern dash-scaled (regex -scaled with the extension lookahead, flag i):
the stem ends case-insensitively in "-scaled". -/
def patScaled (stem : Str) : Option Nat :=
  match (toLowerL stem).reverse with
  | 'd' :: 'e' :: 'l' :: 'a' :: 'c' :: 's' :: '-' :: _ => some 7
  | _ => none

/-- Pattern at-digit-x (flag i): the stem ends in an at-sign, one digit, x. -/
def patAtx (stem : Str) : Option Nat :=
  match (toLowerL stem).reverse with
  | 'x' :: d :: '@' :: _ => if d.isDigit then some 3 else none
  | _ => none

/-- Pattern sep-digits-x-digits (dash or underscore variant): the stem ends
in sep, 2-5 digits, x, 2-5 digits.  The digit runs must be exactly the maximal
runs, since a shorter greedy match would leave a digit where sep or x is
required. -/
def patSepWxH (sep : Char) (stem : Str) : Option Nat :=
  let r := (toLowerL stem).reverse
  let d2 := r.takeWhile Char.isDigit
  match r.dropWhile Char.isDigit with
  | 'x' :: r2 =>
    let d1 := r2.takeWhile Char.isDigit
    match r2.dropWhile Char.isDigit with
    | c :: _ =>
      if c = sep && 2 ≤ d1.length && d1.length ≤ 5 && 2 ≤ d2.length && d2.length ≤ 5 then
        some (d1.length + d2.length + 2)
      else none
    | [] => none
  | _ => none

def patDashWxH : Str → Option Nat := patSepWxH '-'
def patUnderWxH : Str → Option Nat := patSepWxH '_'

/-- One String.replace with an end-anchored pattern: if the path ends in a
2-5 character alphanumeric extension and the stem matches, drop the matched
suffix of the stem. -/
def stripEnd (pat : Str → Option Nat) (p : Str) : Str :=
  match lastDotSplit p with
  | none => p
  | some (stem, e) =>
    if extOk e then
      match pat stem with
      | some n => stem.take (stem.length - n) ++ '.' :: e
      | none => p
    else p

/-- The four sequential replaces of canonicalImageKey, in source order. -/
def canonPath (p : Str) : Str :=
  stripEnd patUnderWxH (stripEnd patDashWxH (stripEnd patAtx (stripEnd patScaled p)))

/-- u.searchParams.get: first value for the (case-sensitive) name. -/
def getParam (q : List (Str × Str)) (k : Str) : Option Str :=
  (q.find? (fun kv => kv.1 == k)).map Prod.snd

/-- JS default Array.sort comparator order: lexicographic on code units. -/
def lexLe : Str → Str → Bool
  | [], _ => true
  | _ :: _, [] => false
  | a :: as, b :: bs =>
    if a.toNat < b.toNat then true
    else if b.toNat < a.toNat then false
    else lexLe as bs

def insertSorted (x : Str) : List Str → List Str
  | [] => [x]
  | y :: ys => if lexLe x y then x :: y :: ys else y :: insertSorted x ys

def sortStrs (l : List Str) : List Str := l.foldr insertSorted []

def keysToKeep : List Str :=
  [str "w", str "width", str "h", str "height", str "q", str "quality",
   str "dpr", str "fm", str "format"]

/-- The kept quality parameters, rendered k=v, in whitelist order before the
sort; a present-but-empty value is falsy in JS and therefore skipped. -/
def keepParams (q : List (Str × Str)) : List Str :=
  sortStrs (keysToKeep.filterMap (fun k =>
    match getParam q k with
    | some v => if v = [] then none else some (k ++ '=' :: v)
    | none => none))

def joinAmp (l : List Str) : Str := List.intercalate (str "&") l

/-- u.origin for the fields the model carries (the default port is elided,
as WHATWG does for http/https). -/
def urlOrigin (u : ParsedUrl) : Str := u.protocol ++ str "//" ++ toLowerL u.hostname

/-- canonicalImageKey (src/server.js lines 298-325): fragment dropped, host
lowercased, resize suffixes stripped from the path, whitelisted query
parameters kept sorted, everything lowercased; the catch branch returns the
raw string itself. -/
def canonicalImageKey : UrlInput → Str
  | .raw s => s
  | .parsed u =>
    toLowerL (urlOrigin u ++ canonPath u.path ++ '?' :: joinAmp (keepParams u.query))

-- sanity checks on concrete inputs
example : canonPath (str "/img-1200x800.jpg") = str "/img.jpg" := by decide
example : canonPath (str "/img-scaled.jpg") = str "/img.jpg" := by decide
example : canonPath (str "/img@2x.jpg") = str "/img.jpg" := by decide
example : canonPath (str "/img_240x180.png") = str "/img.png" := by decide
example : canonPath (str "/img-1x2.jpg") = str "/img-1x2.jpg" := by decide
example :
    canonicalImageKey (.parsed ⟨str "https:", str "E.com", str "/A-scaled.JPG",
      [(str "token", str "zz"), (str "w", str "640")], str "top", str "x"⟩) =
    str "https://e.com/a.jpg?w=640" := by decide

-- Helper lemmas for end-anchored stripping on paths of the form
-- root ++ suffix ++ "." ++ ext.

lemma takeWhile_middle {p : Char → Bool} (l1 : Str) (x : Char) (l2 : Str)
    (h1 : ∀ c ∈ l1, p c = true) (hx : p x = false) :
    (l1 ++ x :: l2).takeWhile p = l1 := by
  induction l1 with
  | nil => simp [List.takeWhile, hx]
  | cons a as ih =>
    have ha : p a = true := h1 a (by simp)
    simp only [List.cons_append, List.takeWhile, ha, List.cons.injEq, true_and]
    exact ih (fun c hc => h1 c (by simp [hc]))

lemma dropWhile_middle {p : Char → Bool} (l1 : Str) (x : Char) (l2 : Str)
    (h1 : ∀ c ∈ l1, p c = true) (hx : p x = false) :
    (l1 ++ x :: l2).dropWhile p = x :: l2 := by
  induction l1 with
  | nil => simp [List.dropWhile, hx]
  | cons a as ih =>
    have ha : p a = true := h1 a (by simp)
    simp only [List.cons_append, List.dropWhile, ha]
    exact ih (fun c hc => h1 c (by simp [hc]))

lemma lastDotSplit_concat (root e : Str) (he : ∀ c ∈ e, c ≠ '.') :
    lastDotSplit (root ++ '.' :: e) = some (root, e) := by
  have hrev : (root ++ '.' :: e).reverse = e.reverse ++ '.' :: root.reverse := by
    simp [List.reverse_append]
  have hmem : ∀ c ∈ e.reverse, (fun c => decide (c ≠ '.')) c = true :=
    fun c hc => by simpa using he c (List.mem_reverse.mp hc)
  have htw := takeWhile_middle (p := fun c => decide (c ≠ '.')) e.reverse '.' root.reverse
    hmem (by simp)
  have hdw := dropWhile_middle (p := fun c => decide (c ≠ '.')) e.reverse '.' root.reverse
    hmem (by simp)
  unfold lastDotSplit
  rw [hrev, htw, hdw]
  simp

lemma lowrev (root lit : Str) :
    (toLowerL (root ++ lit)).reverse = (toLowerL lit).reverse ++ (toLowerL root).reverse := by
  simp [toLowerL]

lemma patScaled_scaled (root : Str) : patScaled (root ++ str "-scaled") = some 7 := by
  unfold patScaled; rw [lowrev]; rfl

lemma patScaled_atx (root : Str) : patScaled (root ++ str "@2x") = none := by
  unfold patScaled; rw [lowrev]; rfl

lemma patScaled_wh (root : Str) : patScaled (root ++ str "-1200x800") = none := by
  unfold patScaled; rw [lowrev]; rfl

lemma patAtx_scaled (root : Str) : patAtx (root ++ str "-scaled") = none := by
  unfold patAtx; rw [lowrev]; rfl

lemma patAtx_atx (root : Str) : patAtx (root ++ str "@2x") = some 3 := by
  unfold patAtx; rw [lowrev]; rfl

lemma patAtx_wh (root : Str) : patAtx (root ++ str "-1200x800") = none := by
  unfold patAtx; rw [lowrev]; rfl

lemma patDash_atx (root : Str) : patDashWxH (root ++ str "@2x") = none := by
  unfold patDashWxH patSepWxH; rw [lowrev]; rfl

lemma patDash_wh (root : Str) : patDashWxH (root ++ str "-1200x800") = some 9 := by
  unfold patDashWxH patSepWxH; rw [lowrev]; rfl

lemma patUnder_atx (root : Str) : patUnderWxH (root ++ str "@2x") = none := by
  unfold patUnderWxH patSepWxH; rw [lowrev]; rfl

lemma patUnder_wh (root : Str) : patUnderWxH (root ++ str "-1200x800") = none := by
  unfold patUnderWxH patSepWxH; rw [lowrev]; rfl

lemma stripEnd_hit (pat : Str → Option Nat) (root lit e : Str) (n : Nat)
    (hpat : pat (root ++ lit) = some n) (hn : lit.length = n)
    (he : extOk e = true) (hdot : ∀ c ∈ e, c ≠ '.') :
    stripEnd pat ((root ++ lit) ++ '.' :: e) = root ++ '.' :: e := by
  unfold stripEnd
  rw [lastDotSplit_concat _ _ hdot]
  simp only [he, if_true, hpat]
  have hlen : (root ++ lit).length - n = root.length := by
    simp [List.length_append, hn]
  rw [hlen]
  congr 1
  exact List.take_left root lit

lemma stripEnd_noop (pat : Str → Option Nat) (root e : Str)
    (hpat : pat root = none) (hdot : ∀ c ∈ e, c ≠ '.') :
    stripEnd pat (root ++ '.' :: e) = root ++ '.' :: e := by
  unfold stripEnd
  rw [lastDotSplit_concat _ _ hdot]
  cases hek : extOk e <;> simp [hek, hpat]

lemma jpg_dots : ∀ c ∈ str "jpg", c ≠ '.' := by decide

lemma canonPath_noop (root : Str)
    (h1 : patScaled root = none) (h2 : patAtx root = none)
    (h3 : patDashWxH root = none) (h4 : patUnderWxH root = none) :
    canonPath (root ++ '.' :: str "jpg") = root ++ '.' :: str "jpg" := by
  unfold canonPath
  rw [stripEnd_noop _ _ _ h1 jpg_dots, stripEnd_noop _ _ _ h2 jpg_dots,
    stripEnd_noop _ _ _ h3 jpg_dots, stripEnd_noop _ _ _ h4 jpg_dots]

/-- C6: for every origin, query, fragment, and path root whose own tail does
not match any strippable marker, the three responsive-resize variants
collapse to the key of the plain form: the path stripping removes exactly
the marker, the fragment is dropped (the four URLs carry distinct
fragments), the host is lowercased and only whitelisted query parameters
are kept sorted; and re-deriving from the already-stripped path is stable. -/
theorem canonicalImageKey_collapses_variants
    (protocol host f1 f2 f3 f4 r1 r2 r3 r4 : Str) (q : List (Str × Str)) (root : Str)
    (h1 : patScaled root = none) (h2 : patAtx root = none)
    (h3 : patDashWxH root = none) (h4 : patUnderWxH root = none) :
    canonPath (root ++ str "-1200x800.jpg") = canonPath (root ++ str ".jpg") ∧
    canonPath (root ++ str "-scaled.jpg") = canonPath (root ++ str ".jpg") ∧
    canonPath (root ++ str "@2x.jpg") = canonPath (root ++ str ".jpg") ∧
    canonicalImageKey (.parsed ⟨protocol, host, root ++ str "-1200x800.jpg", q, f1, r1⟩) =
      canonicalImageKey (.parsed ⟨protocol, host, root ++ str ".jpg", q, f4, r4⟩) ∧
    canonicalImageKey (.parsed ⟨protocol, host, root ++ str "-scaled.jpg", q, f2, r2⟩) =
      canonicalImageKey (.parsed ⟨protocol, host, root ++ str ".jpg", q, f4, r4⟩) ∧
    canonicalImageKey (.parsed ⟨protocol, host, root ++ str "@2x.jpg", q, f3, r3⟩) =
      canonicalImageKey (.parsed ⟨protocol, host, root ++ str ".jpg", q, f4, r4⟩) ∧
    canonPath (canonPath (root ++ str ".jpg")) = canonPath (root ++ str ".jpg") := by
  have hjpg : str ".jpg" = '.' :: str "jpg" := rfl
  have hwh : root ++ str "-1200x800.jpg" = (root ++ str "-1200x800") ++ '.' :: str "jpg" := by
    rw [List.append_assoc]; rfl
  have hsc : root ++ str "-scaled.jpg" = (root ++ str "-scaled") ++ '.' :: str "jpg" := by
    rw [List.append_assoc]; rfl
  have hax : root ++ str "@2x.jpg" = (root ++ str "@2x") ++ '.' :: str "jpg" := by
    rw [List.append_assoc]; rfl
  have cbase : canonPath (root ++ str ".jpg") = root ++ '.' :: str "jpg" := by
    rw [hjpg]; exact canonPath_noop root h1 h2 h3 h4
  have cwh : canonPath (root ++ str "-1200x800.jpg") = root ++ '.' :: str "jpg" := by
    rw [hwh]
    unfold canonPath
    rw [stripEnd_noop _ _ _ (patScaled_wh root) jpg_dots,
      stripEnd_noop _ _ _ (patAtx_wh root) jpg_dots,
      stripEnd_hit patDashWxH root (str "-1200x800") (str "jpg") 9
        (patDash_wh root) (by decide) (by decide) jpg_dots,
      stripEnd_noop _ _ _ h4 jpg_dots]
  have csc : canonPath (root ++ str "-scaled.jpg") = root ++ '.' :: str "jpg" := by
    rw [hsc]
    unfold canonPath
    rw [stripEnd_hit patScaled root (str "-scaled") (str "jpg") 7
        (patScaled_scaled root) (by decide) (by decide) jpg_dots,
      stripEnd_noop _ _ _ h2 jpg_dots,
      stripEnd_noop _ _ _ h3 jpg_dots,
      stripEnd_noop _ _ _ h4 jpg_dots]
  have cax : canonPath (root ++ str "@2x.jpg") = root ++ '.' :: str "jpg" := by
    rw [hax]
    unfold canonPath
    rw [stripEnd_noop _ _ _ (patScaled_atx root) jpg_dots,
      stripEnd_hit patAtx root (str "@2x") (str "jpg") 3
        (patAtx_atx root) (by decide) (by decide) jpg_dots,
      stripEnd_noop _ _ _ h3 jpg_dots,
      stripEnd_noop _ _ _ h4 jpg_dots]
  refine ⟨by rw [cwh, cbase], by rw [csc, cbase], by rw [cax, cbase], ?_, ?_, ?_, ?_⟩
  · simp only [canonicalImageKey]; rw [cwh, cbase]; rfl
  · simp only [canonicalImageKey]; rw [csc, cbase]; rfl
  · simp only [canonicalImageKey]; rw [cax, cbase]; rfl
  · rw [cbase]; exact canonPath_noop root h1 h2 h3 h4

theorem canonicalImageKey_collapses_variants_witness :
    canonicalImageKey (.parsed ⟨str "https:", str "Shop.example", str "/media/img@2x.jpg",
        [(str "sig", str "abc")], str "hero", str "u3"⟩) =
      canonicalImageKey (.parsed ⟨str "https:", str "Shop.example", str "/media/img.jpg",
        [(str "sig", str "abc")], [], str "u4"⟩) ∧
    canonicalImageKey (.parsed ⟨str "https:", str "Shop.example", str "/media/img-1200x800.jpg",
        [(str "sig", str "abc")], str "a", str "u1"⟩) =
      canonicalImageKey (.parsed ⟨str "https:", str "Shop.example", str "/media/img.jpg",
        [(str "sig", str "abc")], [], str "u4"⟩) := by
  have h := canonicalImageKey_collapses_variants (str "https:") (str "Shop.example")
    (str "a") (str "b") (str "hero") [] (str "u1") (str "u2") (str "u3") (str "u4")
    [(str "sig", str "abc")] (str "/media/img")
    (by decide) (by decide) (by decide) (by decide)
  exact ⟨h.2.2.2.2.2.1, h.2.2.2.1⟩

/-- C6 as frozen is false: it quantifies over every origin and path root,
but for the path root "/a-scaled" the at-2x variant and the plain form give
different keys, because the sequential replaces strip "-scaled" from the
plain form while in the variant the "@2x" marker shields it. -/
theorem canonicalImageKey_collapse_counterexample :
    canonicalImageKey (.parsed ⟨str "http:", str "e.com", str "/a-scaled@2x.jpg", [], [], str "u1"⟩) ≠
    canonicalImageKey (.parsed ⟨str "http:", str "e.com", str "/a-scaled.jpg", [], [], str "u2"⟩) := by
  decide

-- -----------------------
-- URL scoring (src/server.js lines 327-368) and extensions (256-293)
-- -----------------------

def isPrefixL : Str → Str → Bool
  | [], _ => true
  | _ :: _, [] => false
  | a :: as, b :: bs => a = b && isPrefixL as bs

/-- JS String.prototype.includes. -/
def isInfixL (needle : Str) : Str → Bool
  | [] => decide (needle = [])
  | c :: rest => isPrefixL needle (c :: rest) || isInfixL needle rest

def cleanNum (v : Str) : Str := v.filter (fun c => c.isDigit || c = '.')

/-- JS Number on a string already cleaned to digits and dots: integers,
one-dot decimals (including leading or trailing dot), empty gives 0,
several dots give NaN. -/
def jsNumOfCleaned (s : Str) : Option ℚ :=
  if s = [] then some 0
  else match splitOnChar '.' s with
    | [a] => some ((digitsVal a : ℚ))
    | [a, b] =>
      if a = [] && b = [] then none
      else some ((digitsVal a : ℚ) + (digitsVal b : ℚ) / ((10 : ℚ) ^ b.length))
    | _ => none

/-- getNumericParam: first listed parameter whose cleaned value parses to a
positive number; absent, empty, NaN or non-positive values fall through. -/
def getNumericParam (q : List (Str × Str)) : List Str → ℚ
  | [] => 0
  | n :: rest =>
    match getParam q n with
    | some v =>
      if v = [] then getNumericParam q rest
      else
        match jsNumOfCleaned (cleanNum v) with
        | some num => if 0 < num then num else getNumericParam q rest
        | none => getNumericParam q rest
    | none => getNumericParam q rest

def firstNonEmpty : List Str → Str
  | [] => []
  | x :: xs => if x = [] then firstNonEmpty xs else x

/-- scoreImageUrl (src/server.js lines 337-368).  JS float arithmetic is
modelled as exact rationals; the catch branch gives 0. -/
def scoreImageUrl : UrlInput → ℚ
  | .raw _ => 0
  | .parsed u =>
    let w := getNumericParam u.query
      [str "w", str "width", str "dw", str "sw", str "imgw", str "maxw", str "mw"]
    let h := getNumericParam u.query
      [str "h", str "height", str "dh", str "sh", str "imgh", str "maxh", str "mh"]
    let qv := getNumericParam u.query [str "q", str "quality", str "qlt"]
    let dpr := getNumericParam u.query [str "dpr", str "devicePixelRatio", str "dpi"]
    let area := if w ≠ 0 then (if h ≠ 0 then w * h else w * 1000) else 0
    let fmt := toLowerL (firstNonEmpty
      [(getParam u.query (str "fm")).getD [], (getParam u.query (str "format")).getD []])
    let pathExt := toLowerL (((splitOnChar '.' u.path).getLast?).getD [])
    let format := if fmt ≠ [] then fmt else pathExt
    let formatBonus : ℚ :=
      if isInfixL (str "avif") format then 60000
      else if isInfixL (str "webp") format then 40000
      else if isInfixL (str "png") format then 12000
      else 0
    let qBonus : ℚ := if qv ≠ 0 then (min 100 qv) * 250 else 0
    let dprBonus : ℚ := if dpr ≠ 0 then (min 6 dpr) * 6000 else 0
    let lpath := toLowerL u.path
    let thumbPenalty : ℚ :=
      if isInfixL (str "thumb") lpath || isInfixL (str "thumbnail") lpath ||
         isInfixL (str "small") lpath || isInfixL (str "_sm") lpath ||
         isInfixL (str "_xs") lpath || isInfixL (str "/sm/") lpath ||
         isInfixL (str "/thumbs/") lpath then -20000 else 0
    area + formatBonus + qBonus + dprBonus + thumbPenalty

def isWsChar (c : Char) : Bool :=
  c = ' ' || c = '\t' || c = '\n' || c = '\r' || c = '\x0c' || c = '\x0b'

def trimWs (s : Str) : Str :=
  ((s.dropWhile isWsChar).reverse.dropWhile isWsChar).reverse

/-- extFromContentType (src/server.js lines 256-276). -/
def extFromContentType (ct : Str) : Str :=
  let s := trimWs ((toLowerL ct).takeWhile (fun c => c ≠ ';'))
  if s = str "image/jpeg" || s = str "image/jpg" then str "jpg"
  else if s = str "image/png" then str "png"
  else if s = str "image/webp" then str "webp"
  else if s = str "image/gif" then str "gif"
  else if s = str "image/svg+xml" then str "svg"
  else if s = str "image/avif" then str "avif"
  else if s = str "image/bmp" || s = str "image/x-ms-bmp" then str "bmp"
  else if s = str "image/tiff" then str "tiff"
  else if s = str "image/x-icon" || s = str "image/vnd.microsoft.icon" then str "ico"
  else if s = str "image/heic" then str "heic"
  else if s = str "image/heif" then str "heif"
  else if s = str "image/apng" then str "apng"
  else []

def okUrlExts : List Str :=
  [str "jpg", str "jpeg", str "png", str "webp", str "gif", str "svg", str "avif",
   str "bmp", str "tif", str "tiff", str "ico", str "heic", str "heif", str "apng"]

/-- extFromUrl (src/server.js lines 278-293): 1-5 alphanumeric characters
after the last dot of the last path segment, whitelisted, jpeg and tif
normalised; the catch branch gives the empty string. -/
def extFromUrl : UrlInput → Str
  | .raw _ => []
  | .parsed u =>
    let lastSeg := ((splitOnChar '/' u.path).getLast?).getD []
    match lastDotSplit lastSeg with
    | none => []
    | some (_, e) =>
      if 1 ≤ e.length && e.length ≤ 5 && e.all isExtChar then
        let ext := toLowerL e
        if ext ∈ okUrlExts then
          if ext = str "jpeg" then str "jpg"
          else if ext = str "tif" then str "tiff"
          else ext
        else []
      else []

-- sanity checks
example : scoreImageUrl (.raw (str "not a url")) = 0 := rfl
example : getNumericParam [(str "w", str "640x")] [str "w"] = 640 := by decide
example : extFromUrl (.parsed ⟨str "https:", str "a.b", str "/pic.JPEG", [], [], str "u"⟩)
    = str "jpg" := by decide
example : extFromContentType (str "image/SVG+xml; charset=utf-8") = str "svg" := by decide

-- -----------------------
-- The image candidate registry (src/server.js lines 1114-1169)
-- -----------------------

/-- An association-list view of a JS Map: set replaces the first binding in
place or appends a fresh one. -/
def alGet {β : Type} (m : List (Str × β)) (k : Str) : Option β :=
  (m.find? (fun kv => kv.1 == k)).map Prod.snd

def alSet {β : Type} (m : List (Str × β)) (k : Str) (v : β) : List (Str × β) :=
  match m with
  | [] => [(k, v)]
  | (k0, v0) :: rest => if k0 = k then (k0, v) :: rest else (k0, v0) :: alSet rest k v

def countKey {β : Type} (m : List (Str × β)) (k : Str) : Nat :=
  (m.filter (fun kv => kv.1 == k)).length

structure RegRec where
  score : ℚ
  filePath : Str
  ext : Str
  url : Str
  bytes : Nat
deriving DecidableEq, Repr

/-- The buffer registry together with the temporary storage it writes:
bestByKey plus the tmpDir contents (filePath to bytes). -/
structure Registry where
  best : List (Str × RegRec)
  disk : List (Str × List Nat)
deriving DecidableEq, Repr

/-- One buffer submission: the url argument (none models a falsy url), the
bytes, the content type. -/
structure BufCand where
  url : Option UrlInput
  buf : List Nat
  contentType : Str

def urlInputRaw : UrlInput → Str
  | .parsed u => u.raw
  | .raw s => s

def bufExt (c : BufCand) : Str :=
  firstNonEmpty [(match c.url with | some u => extFromUrl u | none => []),
    extFromContentType c.contentType, str "img"]

def bufKey (sha1 : List Nat → Str) (c : BufCand) : Str :=
  match c.url with
  | some u => canonicalImageKey u
  | none => sha1 c.buf

def bufUrlStr (c : BufCand) : Str :=
  match c.url with
  | some u => urlInputRaw u
  | none => []

/-- finalScore = urlScore + buf.length. -/
def bufScore (c : BufCand) : ℚ :=
  (match c.url with | some u => scoreImageUrl u | none => 0) + (c.buf.length : ℚ)

def bufPath (sha1 : List Nat → Str) (keyHash : Str → Str) (tmpDir : Str) (c : BufCand) : Str :=
  tmpDir ++ '/' :: (keyHash (bufKey sha1 c) ++ '.' :: bufExt c)

def bufRec (sha1 : List Nat → Str) (keyHash : Str → Str) (tmpDir : Str) (c : BufCand) : RegRec :=
  ⟨bufScore c, bufPath sha1 keyHash tmpDir c, bufExt c, bufUrlStr c, c.buf.length⟩

/-- considerBufferCandidate (src/server.js lines 1137-1161): empty buffers
and cancelled jobs are ignored; a stored record with score at least the
final score wins; otherwise the bytes are written to the per-key path and
the record replaced.  sha1 and stableKeyHash are crypto primitives taken as
parameters; the fs write is modelled as always succeeding. -/
def considerBufferCandidate (sha1 : List Nat → Str) (keyHash : Str → Str) (tmpDir : Str)
    (cancel : Bool) (st : Registry) (c : BufCand) : Registry :=
  if c.buf = [] then st
  else if cancel then st
  else
    match alGet st.best (bufKey sha1 c) with
    | some prev =>
      if bufScore c ≤ prev.score then st
      else ⟨alSet st.best (bufKey sha1 c) (bufRec sha1 keyHash tmpDir c),
            alSet st.disk (bufPath sha1 keyHash tmpDir c) c.buf⟩
    | none =>
      ⟨alSet st.best (bufKey sha1 c) (bufRec sha1 keyHash tmpDir c),
       alSet st.disk (bufPath sha1 keyHash tmpDir c) c.buf⟩

structure UrlCandRec where
  url : Str
  scoreUrlOnly : ℚ
deriving DecidableEq, Repr

/-- considerUrlCandidate (src/server.js lines 1123-1135). -/
def considerUrlCandidate (cancel : Bool) (st : List (Str × UrlCandRec))
    (rawUrl : Option UrlInput) : List (Str × UrlCandRec) :=
  match rawUrl with
  | none => st
  | some u =>
    if cancel then st
    else if (str "data:image/").isPrefixOf (toLowerL (urlInputRaw u)) then st
    else
      match alGet st (canonicalImageKey u) with
      | some prev =>
        if prev.scoreUrlOnly < scoreImageUrl u then
          alSet st (canonicalImageKey u) ⟨urlInputRaw u, scoreImageUrl u⟩
        else st
      | none => alSet st (canonicalImageKey u) ⟨urlInputRaw u, scoreImageUrl u⟩

/-- dataUrlToBuffer (src/server.js lines 669-680): the anchored
data:image regex; the payload may not contain line terminators (dot does
not match them); Buffer.from base64 decoding is a runtime primitive taken
as a parameter. -/
def isMimeChar (c : Char) : Bool :=
  c.isAlpha || c.isDigit || c = '.' || c = '+' || c = '-'

def dataUrlToBuffer (b64decode : Str → List Nat) (s : Str) : Option (Str × List Nat) :=
  if toLowerL (s.take 11) = str "data:image/" then
    let rest := s.drop 11
    let mime := rest.takeWhile isMimeChar
    let rest2 := rest.drop mime.length
    if mime ≠ [] && toLowerL (rest2.take 8) = str ";base64," then
      let payload := rest2.drop 8
      if payload ≠ [] && payload.all (fun c => c ≠ '\n' && c ≠ '\r') then
        some (toLowerL (str "image/" ++ mime), b64decode payload)
      else none
    else none
  else none

/-- considerDataImage (src/server.js lines 1163-1169).  The synthetic
identifier data.ext has no scheme, so new URL throws on it and it flows
through the raw branch of canonicalImageKey. -/
def considerDataImage (b64decode : Str → List Nat) (sha1 : List Nat → Str)
    (keyHash : Str → Str) (tmpDir : Str) (cancel : Bool) (st : Registry)
    (dataUrl : Str) : Registry :=
  match dataUrlToBuffer b64decode dataUrl with
  | none => st
  | some (ct, buf) =>
    let ext := firstNonEmpty [extFromContentType ct, str "img"]
    considerBufferCandidate sha1 keyHash tmpDir cancel st
      ⟨some (.raw (str "data." ++ ext)), buf, ct⟩

-- Association-list lemmas for the JS Map model.

lemma alGet_alSet_self {β : Type} (m : List (Str × β)) (k : Str) (v : β) :
    alGet (alSet m k v) k = some v := by
  induction m with
  | nil => simp [alSet, alGet]
  | cons kv rest ih =>
    obtain ⟨k0, v0⟩ := kv
    by_cases h : k0 = k
    · subst h; simp [alSet, alGet]
    · simp only [alSet, h, if_false]
      simp only [alGet, List.find?] at ih ⊢
      have : (k0 == k) = false := by simp [h]
      simp [this, ih]

lemma alSet_alSet_same {β : Type} (m : List (Str × β)) (k : Str) (v w : β) :
    alSet (alSet m k v) k w = alSet m k w := by
  induction m with
  | nil => simp [alSet]
  | cons kv rest ih =>
    obtain ⟨k0, v0⟩ := kv
    by_cases h : k0 = k
    · subst h; simp [alSet]
    · simp [alSet, h, ih]

lemma countKey_alSet {β : Type} (m : List (Str × β)) (k : Str) (v : β) :
    countKey (alSet m k v) k = max (countKey m k) 1 := by
  induction m with
  | nil => simp [alSet, countKey]
  | cons kv rest ih =>
    obtain ⟨k0, v0⟩ := kv
    by_cases h : k0 = k
    · subst h
      simp [alSet, countKey, List.filter]
    · have hb : (k0 == k) = false := by simp [h]
      simp only [alSet, h, if_false, countKey, List.filter, hb]
      simpa [countKey] using ih

lemma alGet_none_of_countKey_zero {β : Type} (m : List (Str × β)) (k : Str)
    (h : countKey m k = 0) : alGet m k = none := by
  induction m with
  | nil => rfl
  | cons kv rest ih =>
    obtain ⟨k0, v0⟩ := kv
    by_cases hk : k0 = k
    · subst hk
      exfalso
      unfold countKey at h
      rw [List.filter_cons_of_pos (by simp)] at h
      exact Nat.succ_ne_zero _ h
    · have hb : (k0 == k) = false := by simp [hk]
      simp only [countKey, List.filter, hb] at h
      simp only [alGet, List.find?, hb]
      exact ih h

lemma length_alSet_absent {β : Type} (m : List (Str × β)) (k : Str) (v : β)
    (h : alGet m k = none) : (alSet m k v).length = m.length + 1 := by
  induction m with
  | nil => simp [alSet]
  | cons kv rest ih =>
    obtain ⟨k0, v0⟩ := kv
    by_cases hk : k0 = k
    · subst hk
      simp [alGet, List.find?] at h
    · have hb : (k0 == k) = false := by simp [hk]
      simp only [alGet, List.find?, hb] at h
      simp [alSet, hk, ih h]

-- C2: order-independent convergence of the buffer registry.

lemma cbc_write_absent (sha1 : List Nat → Str) (keyHash : Str → Str) (tmpDir : Str)
    (st : Registry) (c : BufCand) (hc : c.buf ≠ [])
    (habs : alGet st.best (bufKey sha1 c) = none) :
    considerBufferCandidate sha1 keyHash tmpDir false st c =
      ⟨alSet st.best (bufKey sha1 c) (bufRec sha1 keyHash tmpDir c),
       alSet st.disk (bufPath sha1 keyHash tmpDir c) c.buf⟩ := by
  simp [considerBufferCandidate, hc, habs]

lemma cbc_skip (sha1 : List Nat → Str) (keyHash : Str → Str) (tmpDir : Str)
    (st : Registry) (c : BufCand) (prev : RegRec) (hc : c.buf ≠ [])
    (hprev : alGet st.best (bufKey sha1 c) = some prev)
    (hle : bufScore c ≤ prev.score) :
    considerBufferCandidate sha1 keyHash tmpDir false st c = st := by
  simp [considerBufferCandidate, hc, hprev, hle]

lemma cbc_improve (sha1 : List Nat → Str) (keyHash : Str → Str) (tmpDir : Str)
    (st : Registry) (c : BufCand) (prev : RegRec) (hc : c.buf ≠ [])
    (hprev : alGet st.best (bufKey sha1 c) = some prev)
    (hgt : prev.score < bufScore c) :
    considerBufferCandidate sha1 keyHash tmpDir false st c =
      ⟨alSet st.best (bufKey sha1 c) (bufRec sha1 keyHash tmpDir c),
       alSet st.disk (bufPath sha1 keyHash tmpDir c) c.buf⟩ := by
  have : ¬ bufScore c ≤ prev.score := not_le.mpr hgt
  simp [considerBufferCandidate, hc, hprev, this]

lemma cbc_two_orders (sha1 : List Nat → Str) (keyHash : Str → Str) (tmpDir : Str)
    (st : Registry) (a b : BufCand)
    (ha : a.buf ≠ []) (hb : b.buf ≠ [])
    (hkey : bufKey sha1 a = bufKey sha1 b)
    (hlt : bufScore a < bufScore b)
    (habs : alGet st.best (bufKey sha1 a) = none) :
    considerBufferCandidate sha1 keyHash tmpDir false
        (considerBufferCandidate sha1 keyHash tmpDir false st a) b =
      ⟨alSet st.best (bufKey sha1 b) (bufRec sha1 keyHash tmpDir b),
       alSet (alSet st.disk (bufPath sha1 keyHash tmpDir a) a.buf)
         (bufPath sha1 keyHash tmpDir b) b.buf⟩ ∧
    considerBufferCandidate sha1 keyHash tmpDir false
        (considerBufferCandidate sha1 keyHash tmpDir false st b) a =
      ⟨alSet st.best (bufKey sha1 b) (bufRec sha1 keyHash tmpDir b),
       alSet st.disk (bufPath sha1 keyHash tmpDir b) b.buf⟩ := by
  constructor
  · rw [cbc_write_absent sha1 keyHash tmpDir st a ha habs]
    have hget : alGet (alSet st.best (bufKey sha1 a) (bufRec sha1 keyHash tmpDir a))
        (bufKey sha1 b) = some (bufRec sha1 keyHash tmpDir a) := by
      rw [← hkey]; exact alGet_alSet_self _ _ _
    have hsc : (bufRec sha1 keyHash tmpDir a).score < bufScore b := hlt
    rw [cbc_improve sha1 keyHash tmpDir _ b _ hb hget hsc]
    congr 1
    rw [← hkey]
    exact alSet_alSet_same _ _ _ _
  · have habsB : alGet st.best (bufKey sha1 b) = none := by rw [← hkey]; exact habs
    rw [cbc_write_absent sha1 keyHash tmpDir st b hb habsB]
    have hget : alGet (alSet st.best (bufKey sha1 b) (bufRec sha1 keyHash tmpDir b))
        (bufKey sha1 a) = some (bufRec sha1 keyHash tmpDir b) := by
      rw [hkey]; exact alGet_alSet_self _ _ _
    exact cbc_skip sha1 keyHash tmpDir _ a _ ha hget (le_of_lt hlt)

/-- C2: two buffer submissions with the same canonical key and different
final scores leave exactly one registry entry for that key, carrying the
maximum of the two scores, and the final registry and the payload stored at
the winning path are the same in either submission order. -/
theorem registry_converges_to_max (sha1 : List Nat → Str) (keyHash : Str → Str)
    (tmpDir : Str) (st : Registry) (a b : BufCand)
    (ha : a.buf ≠ []) (hb : b.buf ≠ [])
    (hkey : bufKey sha1 a = bufKey sha1 b)
    (hne : bufScore a ≠ bufScore b)
    (habs : countKey st.best (bufKey sha1 a) = 0) :
    (considerBufferCandidate sha1 keyHash tmpDir false
        (considerBufferCandidate sha1 keyHash tmpDir false st a) b).best =
      (considerBufferCandidate sha1 keyHash tmpDir false
        (considerBufferCandidate sha1 keyHash tmpDir false st b) a).best ∧
    countKey (considerBufferCandidate sha1 keyHash tmpDir false
        (considerBufferCandidate sha1 keyHash tmpDir false st a) b).best
      (bufKey sha1 a) = 1 ∧
    ∃ r, alGet (considerBufferCandidate sha1 keyHash tmpDir false
        (considerBufferCandidate sha1 keyHash tmpDir false st a) b).best
          (bufKey sha1 a) = some r ∧
      r.score = max (bufScore a) (bufScore b) ∧
      alGet (considerBufferCandidate sha1 keyHash tmpDir false
          (considerBufferCandidate sha1 keyHash tmpDir false st a) b).disk r.filePath =
        some (if bufScore a < bufScore b then b.buf else a.buf) ∧
      alGet (considerBufferCandidate sha1 keyHash tmpDir false
          (considerBufferCandidate sha1 keyHash tmpDir false st b) a).disk r.filePath =
        some (if bufScore a < bufScore b then b.buf else a.buf) := by
  have hnone : alGet st.best (bufKey sha1 a) = none :=
    alGet_none_of_countKey_zero _ _ habs
  rcases lt_or_gt_of_ne hne with hlt | hgt
  · obtain ⟨h1, h2⟩ := cbc_two_orders sha1 keyHash tmpDir st a b ha hb hkey hlt hnone
    rw [h1, h2]
    refine ⟨rfl, ?_, ⟨bufRec sha1 keyHash tmpDir b, ?_, ?_, ?_, ?_⟩⟩
    · show countKey (alSet st.best (bufKey sha1 b) (bufRec sha1 keyHash tmpDir b))
        (bufKey sha1 a) = 1
      rw [hkey, countKey_alSet, ← hkey, habs]
      simp
    · show alGet (alSet st.best (bufKey sha1 b) (bufRec sha1 keyHash tmpDir b))
        (bufKey sha1 a) = _
      rw [hkey]; exact alGet_alSet_self _ _ _
    · show bufScore b = max (bufScore a) (bufScore b)
      exact (max_eq_right (le_of_lt hlt)).symm
    · show alGet (alSet (alSet st.disk (bufPath sha1 keyHash tmpDir a) a.buf)
          (bufPath sha1 keyHash tmpDir b) b.buf) (bufRec sha1 keyHash tmpDir b).filePath = _
      rw [if_pos hlt]
      exact alGet_alSet_self _ _ _
    · show alGet (alSet st.disk (bufPath sha1 keyHash tmpDir b) b.buf)
          (bufRec sha1 keyHash tmpDir b).filePath = _
      rw [if_pos hlt]
      exact alGet_alSet_self _ _ _
  · have hnoneB : alGet st.best (bufKey sha1 b) = none := by rw [← hkey]; exact hnone
    obtain ⟨h1, h2⟩ := cbc_two_orders sha1 keyHash tmpDir st b a hb ha hkey.symm hgt hnoneB
    rw [h1, h2]
    have hnlt : ¬ bufScore a < bufScore b := not_lt.mpr (le_of_lt hgt)
    refine ⟨rfl, ?_, ⟨bufRec sha1 keyHash tmpDir a, ?_, ?_, ?_, ?_⟩⟩
    · show countKey (alSet st.best (bufKey sha1 a) (bufRec sha1 keyHash tmpDir a))
        (bufKey sha1 a) = 1
      rw [countKey_alSet, habs]
      simp
    · exact alGet_alSet_self _ _ _
    · show bufScore a = max (bufScore a) (bufScore b)
      exact (max_eq_left (le_of_lt hgt)).symm
    · show alGet (alSet st.disk (bufPath sha1 keyHash tmpDir a) a.buf)
          (bufRec sha1 keyHash tmpDir a).filePath = _
      rw [if_neg hnlt]
      exact alGet_alSet_self _ _ _
    · show alGet (alSet (alSet st.disk (bufPath sha1 keyHash tmpDir b) b.buf)
          (bufPath sha1 keyHash tmpDir a) a.buf) (bufRec sha1 keyHash tmpDir a).filePath = _
      rw [if_neg hnlt]
      exact alGet_alSet_self _ _ _

def shaW : List Nat → Str := fun _ => str "sha"
def khW : Str → Str := fun _ => str "kh"
def aW : BufCand := ⟨some (.raw (str "k1")), [1, 2], str "image/png"⟩
def bW : BufCand := ⟨some (.raw (str "k1")), [1, 2, 3], str "image/png"⟩

theorem registry_converges_to_max_witness :
    (considerBufferCandidate shaW khW (str "/t") false
        (considerBufferCandidate shaW khW (str "/t") false ⟨[], []⟩ aW) bW).best =
      (considerBufferCandidate shaW khW (str "/t") false
        (considerBufferCandidate shaW khW (str "/t") false ⟨[], []⟩ bW) aW).best :=
  (registry_converges_to_max shaW khW (str "/t") ⟨[], []⟩ aW bW
    (by decide) (by decide) (by decide)
    (by simp [bufScore, aW, bW, scoreImageUrl])
    (by decide)).1

lemma bufKey_some (sha1 : List Nat → Str) (c : BufCand) (u : UrlInput)
    (hc : c.url = some u) : bufKey sha1 c = canonicalImageKey u := by
  simp [bufKey, hc]

/-- C5: for a buffer candidate carrying a URL, the final score is the
URL-derived score plus the raw byte length, and the registry record and the
payload at the per-key path are replaced exactly when that score strictly
exceeds the stored one; otherwise the state is untouched. -/
theorem considerBufferCandidate_strict_improvement (sha1 : List Nat → Str)
    (keyHash : Str → Str) (tmpDir : Str) (st : Registry) (c : BufCand)
    (u : UrlInput) (prev : RegRec)
    (hurl : c.url = some u) (hbuf : c.buf ≠ [])
    (hprev : alGet st.best (canonicalImageKey u) = some prev) :
    bufScore c = scoreImageUrl u + (c.buf.length : ℚ) ∧
    (prev.score < bufScore c →
      considerBufferCandidate sha1 keyHash tmpDir false st c =
        ⟨alSet st.best (canonicalImageKey u) (bufRec sha1 keyHash tmpDir c),
         alSet st.disk (bufPath sha1 keyHash tmpDir c) c.buf⟩ ∧
      alGet (considerBufferCandidate sha1 keyHash tmpDir false st c).best
        (canonicalImageKey u) = some (bufRec sha1 keyHash tmpDir c) ∧
      alGet (considerBufferCandidate sha1 keyHash tmpDir false st c).disk
        (bufPath sha1 keyHash tmpDir c) = some c.buf) ∧
    (bufScore c ≤ prev.score →
      considerBufferCandidate sha1 keyHash tmpDir false st c = st) := by
  have hk := bufKey_some sha1 c u hurl
  have hprev2 : alGet st.best (bufKey sha1 c) = some prev := by rw [hk]; exact hprev
  refine ⟨by simp [bufScore, hurl], ?_, ?_⟩
  · intro hgt
    have heq := cbc_improve sha1 keyHash tmpDir st c prev hbuf hprev2 hgt
    rw [hk] at heq
    refine ⟨heq, ?_, ?_⟩
    · rw [heq]
      exact alGet_alSet_self _ _ _
    · rw [heq]
      exact alGet_alSet_self _ _ _
  · intro hle
    exact cbc_skip sha1 keyHash tmpDir st c prev hbuf hprev2 hle

def prevW : RegRec := ⟨1, str "/t/kh.img", str "img", str "old", 1⟩
def stW : Registry := ⟨[(str "k1", prevW)], []⟩
def cW : BufCand := ⟨some (.raw (str "k1")), [9, 9, 9], str "zz"⟩

theorem considerBufferCandidate_strict_improvement_witness :
    considerBufferCandidate shaW khW (str "/t") false stW cW =
      ⟨alSet stW.best (canonicalImageKey (.raw (str "k1"))) (bufRec shaW khW (str "/t") cW),
       alSet stW.disk (bufPath shaW khW (str "/t") cW) cW.buf⟩ :=
  ((considerBufferCandidate_strict_improvement shaW khW (str "/t") stW cW
      (.raw (str "k1")) prevW rfl (by decide) (by decide)).2.1
    (by simp [prevW, bufScore, cW, scoreImageUrl])).1

-- C9: data-URI submissions.

lemma cbc_sha1_irrelevant (sha1 sha1x : List Nat → Str) (keyHash : Str → Str)
    (tmpDir : Str) (cancel : Bool) (st : Registry) (c : BufCand) (u : UrlInput)
    (hc : c.url = some u) :
    considerBufferCandidate sha1 keyHash tmpDir cancel st c =
      considerBufferCandidate sha1x keyHash tmpDir cancel st c := by
  have hk : ∀ s : List Nat → Str, bufKey s c = canonicalImageKey u :=
    fun s => bufKey_some s c u hc
  have hp : ∀ s : List Nat → Str, bufPath s keyHash tmpDir c =
      tmpDir ++ '/' :: (keyHash (canonicalImageKey u) ++ '.' :: bufExt c) :=
    fun s => by simp [bufPath, hk]
  have hr : ∀ s : List Nat → Str, bufRec s keyHash tmpDir c =
      ⟨bufScore c, tmpDir ++ '/' :: (keyHash (canonicalImageKey u) ++ '.' :: bufExt c),
       bufExt c, bufUrlStr c, c.buf.length⟩ :=
    fun s => by simp [bufRec, hp, hk]
  simp only [considerBufferCandidate, hk, hp, hr]

/-- C9: two data-URI images with the same content type produce submissions
keyed by the synthetic identifier data.ext derived only from the content
type; the sha1 content-hash branch is never consulted (the result does not
depend on the hash function), and after both submissions the registry holds
exactly one entry for that key, at most one more than before. -/
theorem considerDataImage_key_from_content_type (b64 : Str → List Nat)
    (sha1 sha1x : List Nat → Str) (keyHash : Str → Str) (tmpDir : Str)
    (st : Registry) (d1 d2 ct : Str) (b1 b2 : List Nat)
    (h1 : dataUrlToBuffer b64 d1 = some (ct, b1))
    (h2 : dataUrlToBuffer b64 d2 = some (ct, b2))
    (hb1 : b1 ≠ []) (hb2 : b2 ≠ [])
    (habs : countKey st.best
      (str "data." ++ firstNonEmpty [extFromContentType ct, str "img"]) = 0) :
    bufKey sha1 ⟨some (.raw (str "data." ++ firstNonEmpty [extFromContentType ct, str "img"])), b1, ct⟩
      = str "data." ++ firstNonEmpty [extFromContentType ct, str "img"] ∧
    considerDataImage b64 sha1 keyHash tmpDir false st d1 =
      considerDataImage b64 sha1x keyHash tmpDir false st d1 ∧
    countKey (considerDataImage b64 sha1 keyHash tmpDir false
        (considerDataImage b64 sha1 keyHash tmpDir false st d1) d2).best
      (str "data." ++ firstNonEmpty [extFromContentType ct, str "img"]) = 1 ∧
    (considerDataImage b64 sha1 keyHash tmpDir false
        (considerDataImage b64 sha1 keyHash tmpDir false st d1) d2).best.length
      ≤ st.best.length + 1 := by
  set e := firstNonEmpty [extFromContentType ct, str "img"] with he
  set k := str "data." ++ e with hkdef
  set c1 : BufCand := ⟨some (.raw k), b1, ct⟩ with hc1
  set c2 : BufCand := ⟨some (.raw k), b2, ct⟩ with hc2
  have hk1 : bufKey sha1 c1 = k := rfl
  have hk2 : bufKey sha1 c2 = k := rfl
  have hnone : alGet st.best k = none := alGet_none_of_countKey_zero _ _ habs
  have s1eq : considerDataImage b64 sha1 keyHash tmpDir false st d1 =
      considerBufferCandidate sha1 keyHash tmpDir false st c1 := by
    simp only [considerDataImage, h1]
  have s2eq : ∀ stx, considerDataImage b64 sha1 keyHash tmpDir false stx d2 =
      considerBufferCandidate sha1 keyHash tmpDir false stx c2 := by
    intro stx
    simp only [considerDataImage, h2]
  have write1 : considerBufferCandidate sha1 keyHash tmpDir false st c1 =
      ⟨alSet st.best k (bufRec sha1 keyHash tmpDir c1),
       alSet st.disk (bufPath sha1 keyHash tmpDir c1) b1⟩ := by
    have := cbc_write_absent sha1 keyHash tmpDir st c1 hb1 (by rw [hk1]; exact hnone)
    rw [this, hk1]
  refine ⟨rfl, ?_, ?_⟩
  · simp only [considerDataImage, h1]
    exact cbc_sha1_irrelevant sha1 sha1x keyHash tmpDir false st c1 (.raw k) rfl
  · rw [s1eq, write1, s2eq]
    have hget2 : alGet (alSet st.best k (bufRec sha1 keyHash tmpDir c1)) (bufKey sha1 c2) =
        some (bufRec sha1 keyHash tmpDir c1) := by
      rw [hk2]; exact alGet_alSet_self _ _ _
    by_cases hsc : bufScore c2 ≤ (bufRec sha1 keyHash tmpDir c1).score
    · rw [cbc_skip sha1 keyHash tmpDir _ c2 _ hb2 hget2 hsc]
      constructor
      · rw [countKey_alSet, habs]; simp
      · simp [length_alSet_absent _ _ _ hnone]
    · rw [cbc_improve sha1 keyHash tmpDir _ c2 _ hb2 hget2 (not_le.mp hsc)]
      constructor
      · rw [hk2, alSet_alSet_same, countKey_alSet, habs]; simp
      · rw [hk2, alSet_alSet_same]
        simp [length_alSet_absent _ _ _ hnone]

def b64W : Str → List Nat := fun _ => [7]
def d1W : Str := str "data:image/png;base64,AAAA"
def d2W : Str := str "data:image/PNG;base64,BB"

theorem considerDataImage_key_from_content_type_witness :
    countKey (considerDataImage b64W shaW khW (str "/t") false
        (considerDataImage b64W shaW khW (str "/t") false ⟨[], []⟩ d1W) d2W).best
      (str "data." ++ firstNonEmpty [extFromContentType (str "image/png"), str "img"]) = 1 :=
  (considerDataImage_key_from_content_type b64W shaW shaW khW (str "/t") ⟨[], []⟩
    d1W d2W (str "image/png") [7] [7]
    (by decide) (by decide) (by decide) (by decide) (by decide)).2.2.1

-- -----------------------
-- Site crawler (src/server.js lines 756-821)
-- -----------------------

def matchesAny (s : Str) (pats : List Str) : Bool := pats.any (fun p => isInfixL p s)

/-- The crawler environment: what the browser and the URL parser answer.
fetchLinks none models the swallowed goto/extract error of the try block. -/
structure CrawlEnv where
  fetchLinks : Str → Option (List Str)
  pathOf : Str → Str
  originOf : Str → Str

structure CrawlState where
  visited : List Str
  queue : List (Str × Nat)
  results : List Str
  fetched : List Str
  enqueued : List Str
deriving DecidableEq, Repr

structure CrawlCfg where
  maxPages : Nat
  maxDepth : Nat
  includePatterns : List Str
  excludePatterns : List Str

/-- The inner for-loop over extracted links: the queue-cap check breaks the
whole loop, the visited/origin/filter checks skip one link, otherwise the
link is pushed at depth+1.  The second component logs every push. -/
def enqueueLinks (env : CrawlEnv) (cfg : CrawlCfg) (startUrl : Str) (depth : Nat)
    (visited : List Str) (resultsLen : Nat) :
    List Str → List (Str × Nat) × List Str → List (Str × Nat) × List Str
  | [], acc => acc
  | link :: rest, (queue, log) =>
    if cfg.maxPages * 3 ≤ resultsLen + queue.length then (queue, log)
    else if link ∈ visited then
      enqueueLinks env cfg startUrl depth visited resultsLen rest (queue, log)
    else if env.originOf link ≠ env.originOf startUrl then
      enqueueLinks env cfg startUrl depth visited resultsLen rest (queue, log)
    else if cfg.excludePatterns ≠ [] ∧ matchesAny (env.pathOf link) cfg.excludePatterns then
      enqueueLinks env cfg startUrl depth visited resultsLen rest (queue, log)
    else if cfg.includePatterns ≠ [] ∧ ¬ matchesAny (env.pathOf link) cfg.includePatterns then
      enqueueLinks env cfg startUrl depth visited resultsLen rest (queue, log)
    else
      enqueueLinks env cfg startUrl depth visited resultsLen rest
        (queue ++ [(link, depth + 1)], log ++ [link])

/-- The while loop of crawlSite, fuelled: stop on empty queue or enough
results; pop front; skip empty or visited URLs without marking; mark
visited, apply exclude then include, accept, and below the depth cap fetch
and enqueue the page's links. -/
def crawlLoop (env : CrawlEnv) (cfg : CrawlCfg) (startUrl : Str) :
    Nat → CrawlState → CrawlState
  | 0, st => st
  | fuel + 1, st =>
    if st.queue = [] ∨ cfg.maxPages ≤ st.results.length then st
    else
      match st.queue with
      | [] => st
      | (url, depth) :: rest =>
        if url = [] ∨ url ∈ st.visited then
          crawlLoop env cfg startUrl fuel { st with queue := rest }
        else
          let visited2 := st.visited ++ [url]
          let pathish := env.pathOf url
          if cfg.excludePatterns ≠ [] ∧ matchesAny pathish cfg.excludePatterns then
            crawlLoop env cfg startUrl fuel { st with visited := visited2, queue := rest }
          else if cfg.includePatterns ≠ [] ∧ ¬ matchesAny pathish cfg.includePatterns then
            crawlLoop env cfg startUrl fuel { st with visited := visited2, queue := rest }
          else
            let results2 := st.results ++ [url]
            if cfg.maxDepth ≤ depth then
              crawlLoop env cfg startUrl fuel
                { st with visited := visited2, queue := rest, results := results2 }
            else
              let fetched2 := st.fetched ++ [url]
              match env.fetchLinks url with
              | none =>
                crawlLoop env cfg startUrl fuel
                  { visited := visited2, queue := rest, results := results2,
                    fetched := fetched2, enqueued := st.enqueued }
              | some links =>
                let ql := enqueueLinks env cfg startUrl depth visited2 results2.length
                  links (rest, [])
                crawlLoop env cfg startUrl fuel
                  { visited := visited2, queue := ql.1, results := results2,
                    fetched := fetched2, enqueued := st.enqueued ++ ql.2 }

/-- crawlSite (src/server.js lines 756-821): caller-supplied maxPages and
maxDepth clamped against the hard ceilings (80 pages, depth 6, with the
JS || defaults for zero), frontier seeded with the normalized start URL
when it parses. -/
def crawlSite (env : CrawlEnv) (startUrl : Str) (startNorm : Option Str)
    (reqMaxPages reqMaxDepth : Nat) (includePatterns excludePatterns : List Str)
    (fuel : Nat) : CrawlState :=
  let maxPages := max 1 (min (if reqMaxPages = 0 then 25 else reqMaxPages) 80)
  let maxDepth := min (if reqMaxDepth = 0 then 2 else reqMaxDepth) 6
  let cfg : CrawlCfg := ⟨maxPages, maxDepth, includePatterns, excludePatterns⟩
  let q0 : List (Str × Nat) := match startNorm with | some u => [(u, 0)] | none => []
  crawlLoop env cfg startUrl fuel ⟨[], q0, [], [], []⟩

def CrawlInv (cfg : CrawlCfg) (st : CrawlState) : Prop :=
  st.results.length ≤ cfg.maxPages ∧
  st.results.Nodup ∧ st.fetched.Nodup ∧
  (∀ u ∈ st.results, u ∈ st.visited) ∧
  (∀ u ∈ st.fetched, u ∈ st.visited)

lemma nodup_append_singleton {α : Type} (l : List α) (a : α)
    (h : l.Nodup) (ha : a ∉ l) : (l ++ [a]).Nodup := by
  simp [List.nodup_append, h, ha]

lemma crawlLoop_inv (env : CrawlEnv) (cfg : CrawlCfg) (startUrl : Str)
    (fuel : Nat) :
    ∀ st : CrawlState, CrawlInv cfg st →
      CrawlInv cfg (crawlLoop env cfg startUrl fuel st) := by
  induction fuel with
  | zero => intro st h; exact h
  | succ fuel ih =>
    intro st h
    obtain ⟨hlen, hnr, hnf, hrv, hfv⟩ := h
    rw [crawlLoop]
    by_cases hstop : st.queue = [] ∨ cfg.maxPages ≤ st.results.length
    · simp only [hstop, if_true]
      exact ⟨hlen, hnr, hnf, hrv, hfv⟩
    · simp only [hstop, if_false]
      push_neg at hstop
      obtain ⟨hq, hlt⟩ := hstop
      match hqm : st.queue with
      | [] => exact absurd hqm hq
      | (url, depth) :: rest =>
        by_cases hvis : url = [] ∨ url ∈ st.visited
        · simp only [hvis, if_true]
          exact ih { st with queue := rest } ⟨hlen, hnr, hnf, hrv, hfv⟩
        · simp only [hvis, if_false]
          push_neg at hvis
          obtain ⟨hne, hnv⟩ := hvis
          have hmem : ∀ l : List Str, (∀ u ∈ l, u ∈ st.visited) →
              ∀ u ∈ l, u ∈ st.visited ++ [url] :=
            fun l hl u hu => List.mem_append_left _ (hl u hu)
          have hurlr : url ∉ st.results := fun hc => hnv (hrv url hc)
          have hurlf : url ∉ st.fetched := fun hc => hnv (hfv url hc)
          have hlen2 : (st.results ++ [url]).length ≤ cfg.maxPages := by
            simp only [List.length_append, List.length_cons, List.length_nil]
            omega
          have hnr2 : (st.results ++ [url]).Nodup := nodup_append_singleton _ _ hnr hurlr
          have hnf2 : (st.fetched ++ [url]).Nodup := nodup_append_singleton _ _ hnf hurlf
          have hrv2 : ∀ u ∈ st.results ++ [url], u ∈ st.visited ++ [url] := by
            intro u hu
            rcases List.mem_append.mp hu with h1 | h1
            · exact List.mem_append_left _ (hrv u h1)
            · exact List.mem_append_right _ h1
          have hfv2 : ∀ u ∈ st.fetched ++ [url], u ∈ st.visited ++ [url] := by
            intro u hu
            rcases List.mem_append.mp hu with h1 | h1
            · exact List.mem_append_left _ (hfv u h1)
            · exact List.mem_append_right _ h1
          by_cases hex : cfg.excludePatterns ≠ [] ∧ matchesAny (env.pathOf url) cfg.excludePatterns
          · rw [if_pos hex]
            exact ih ⟨st.visited ++ [url], rest, st.results, st.fetched, st.enqueued⟩
              ⟨hlen, hnr, hnf, hmem _ hrv, hmem _ hfv⟩
          · rw [if_neg hex]
            by_cases hin : cfg.includePatterns ≠ [] ∧ ¬ matchesAny (env.pathOf url) cfg.includePatterns
            · rw [if_pos hin]
              exact ih ⟨st.visited ++ [url], rest, st.results, st.fetched, st.enqueued⟩
                ⟨hlen, hnr, hnf, hmem _ hrv, hmem _ hfv⟩
            · rw [if_neg hin]
              by_cases hdep : cfg.maxDepth ≤ depth
              · rw [if_pos hdep]
                exact ih ⟨st.visited ++ [url], rest, st.results ++ [url], st.fetched, st.enqueued⟩
                  ⟨hlen2, hnr2, hnf, hrv2, hmem _ hfv⟩
              · rw [if_neg hdep]
                cases hfl : env.fetchLinks url with
                | none =>
                  simp only [hfl]
                  exact ih ⟨st.visited ++ [url], rest, st.results ++ [url], st.fetched ++ [url], st.enqueued⟩
                    ⟨hlen2, hnr2, hnf2, hrv2, hfv2⟩
                | some links =>
                  simp only [hfl]
                  exact ih ⟨st.visited ++ [url],
                      (enqueueLinks env cfg startUrl depth (st.visited ++ [url]) (st.results ++ [url]).length links (rest, [])).1,
                      st.results ++ [url], st.fetched ++ [url],
                      st.enqueued ++ (enqueueLinks env cfg startUrl depth (st.visited ++ [url]) (st.results ++ [url]).length links (rest, [])).2⟩
                    ⟨hlen2, hnr2, hnf2, hrv2, hfv2⟩

/-- C3 amended: the crawl accepts at most the clamped page maximum (at most
80) results, and every URL is fetched at most once and accepted as a result
at most once, for every fuel, environment and configuration. -/
theorem crawlSite_ceiling_and_fetch_once (env : CrawlEnv) (startUrl : Str)
    (startNorm : Option Str) (reqMaxPages reqMaxDepth : Nat)
    (includePatterns excludePatterns : List Str) (fuel : Nat) :
    (crawlSite env startUrl startNorm reqMaxPages reqMaxDepth
      includePatterns excludePatterns fuel).results.length ≤ 80 ∧
    (crawlSite env startUrl startNorm reqMaxPages reqMaxDepth
      includePatterns excludePatterns fuel).fetched.Nodup ∧
    (crawlSite env startUrl startNorm reqMaxPages reqMaxDepth
      includePatterns excludePatterns fuel).results.Nodup := by
  unfold crawlSite
  have hinv := crawlLoop_inv env
    ⟨max 1 (min (if reqMaxPages = 0 then 25 else reqMaxPages) 80),
     min (if reqMaxDepth = 0 then 2 else reqMaxDepth) 6,
     includePatterns, excludePatterns⟩ startUrl fuel
    ⟨[], match startNorm with | some u => [(u, 0)] | none => [], [], [], []⟩
    ⟨by simp, List.nodup_nil, List.nodup_nil, by simp, by simp⟩
  obtain ⟨h1, h2, h3, _, _⟩ := hinv
  refine ⟨le_trans h1 ?_, h3, h2⟩
  exact max_le (by norm_num) (min_le_right _ _)

/-- C3 as frozen is false: a URL can be enqueued into the frontier twice.
With pages s linking to a and b, and both a and b linking to c, the
visited test at dequeue time lets both parents push c, so the enqueue log
holds c twice (the fetch log still holds each URL once). -/
theorem crawl_enqueue_twice_counterexample :
    (crawlSite
      ⟨fun u => if u = str "s" then some [str "a", str "b"]
        else if u = str "a" then some [str "c"]
        else if u = str "b" then some [str "c"]
        else some [],
       fun _ => [], fun _ => []⟩
      (str "s") (some (str "s")) 25 6 [] [] 10).enqueued
      = [str "a", str "b", str "c", str "c"] ∧
    ¬ (crawlSite
      ⟨fun u => if u = str "s" then some [str "a", str "b"]
        else if u = str "a" then some [str "c"]
        else if u = str "b" then some [str "c"]
        else some [],
       fun _ => [], fun _ => []⟩
      (str "s") (some (str "s")) 25 6 [] [] 10).enqueued.Nodup := by
  constructor
  · decide
  · decide

-- -----------------------
-- Worker pool (src/server.js lines 826-841)
-- -----------------------

/-- A worker of the pool: between iterations (idle), awaiting workerFn for a
grabbed index (busy), or broken out of its loop (finished). -/
inductive WStatus
  | idle
  | busy (i : Nat)
  | finished
deriving DecidableEq, Repr

/-- The shared state of runWithWorkerPool: the nextIndex counter, the
results array, and each worker's position in its loop. -/
structure PoolState (β : Type) where
  nextIndex : Nat
  results : List (Option β)
  workers : List WStatus
deriving Repr

/-- One cooperative step by worker w.  An idle worker executes
i := nextIndex++ and either grabs item i or breaks; a busy worker's await
resolves, writing results[i] := workerFn(items[i], i).  The single-threaded
runtime makes each of these atomic; the scheduler chooses who runs.  The
worker-id argument of workerFn only selects per-worker browser pages in the
callers, so the produced value is a function of the item and its index. -/
def poolStep {α β : Type} (items : List α) (workerFn : α → Nat → β)
    (st : PoolState β) (w : Nat) : PoolState β :=
  match st.workers.get? w with
  | some .idle =>
    if st.nextIndex < items.length then
      ⟨st.nextIndex + 1, st.results, st.workers.set w (.busy st.nextIndex)⟩
    else
      ⟨st.nextIndex, st.results, st.workers.set w .finished⟩
  | some (.busy i) =>
    match items.get? i with
    | some a => ⟨st.nextIndex, st.results.set i (some (workerFn a i)), st.workers.set w .idle⟩
    | none => st
  | _ => st

def poolInit (β : Type) (n W : Nat) : PoolState β :=
  ⟨0, List.replicate n none, List.replicate W .idle⟩

/-- runWithWorkerPool under an arbitrary interleaving: the pool state after
the scheduler has granted the listed workers their steps, starting from
workerCount idle workers; Promise.all resolves when all workers finished. -/
def runWithWorkerPool {α β : Type} (items : List α) (workerCount : Nat)
    (workerFn : α → Nat → β) (sched : List Nat) : PoolState β :=
  sched.foldl (poolStep items workerFn) (poolInit β items.length workerCount)

def busyCount (ws : List WStatus) : Nat :=
  (ws.filter (fun s => match s with | .busy _ => true | _ => false)).length

def allFinished (ws : List WStatus) : Bool :=
  ws.all (fun s => s = .finished)

def PoolInv {α β : Type} (items : List α) (workerFn : α → Nat → β)
    (W : Nat) (st : PoolState β) : Prop :=
  st.workers.length = W ∧
  st.results.length = items.length ∧
  (∀ w i, st.workers.get? w = some (.busy i) → i < st.nextIndex ∧ i < items.length) ∧
  (∀ i a, items.get? i = some a → i < st.nextIndex →
    (st.results.get? i = some (some (workerFn a i)) ∨
     ∃ w, st.workers.get? w = some (.busy i))) ∧
  (∀ w, st.workers.get? w = some .finished → items.length ≤ st.nextIndex)

lemma get?_set_ne2 {α : Type} (l : List α) (i j : Nat) (v : α) (h : i ≠ j) :
    (l.set i v).get? j = l.get? j := by
  induction l generalizing i j with
  | nil => simp
  | cons a as ih =>
    cases i with
    | zero =>
      cases j with
      | zero => exact absurd rfl h
      | succ j2 => simp [List.set]
    | succ i2 =>
      cases j with
      | zero => simp [List.set]
      | succ j2 =>
        simp only [List.set, List.get?]
        exact ih i2 j2 (fun hc => h (by rw [hc]))

lemma poolStep_inv {α β : Type} (items : List α) (workerFn : α → Nat → β)
    (W : Nat) (st : PoolState β) (w : Nat)
    (h : PoolInv items workerFn W st) :
    PoolInv items workerFn W (poolStep items workerFn st w) := by
  obtain ⟨hwl, hrl, hbusy, hres, hfin⟩ := h
  unfold poolStep
  cases hgw : st.workers.get? w with
  | none => exact ⟨hwl, hrl, hbusy, hres, hfin⟩
  | some s =>
    have hwlt : w < st.workers.length := by
      rcases List.get?_eq_some.mp hgw with ⟨h1, _⟩; exact h1
    cases s with
    | idle =>
      dsimp only
      by_cases hn : st.nextIndex < items.length
      · rw [if_pos hn]
        refine ⟨by simp [hwl], hrl, ?_, ?_, ?_⟩
        · intro w2 i hw2
          dsimp only at hw2
          by_cases hww : w2 = w
          · subst hww
            rw [List.get?_set_eq_of_lt _ hwlt] at hw2
            cases hw2
            exact ⟨Nat.lt_succ_self _, hn⟩
          · rw [get?_set_ne2 _ _ _ _ (fun hc => hww hc.symm)] at hw2
            obtain ⟨h1, h2⟩ := hbusy w2 i hw2
            exact ⟨Nat.lt_succ_of_lt h1, h2⟩
        · intro i a hia hi
          dsimp only at hi ⊢
          rcases Nat.lt_succ_iff_lt_or_eq.mp hi with hi2 | hi2
          · rcases hres i a hia hi2 with hl | ⟨w2, hw2⟩
            · exact Or.inl hl
            · have hww : w2 ≠ w := by
                intro hc; subst hc
                rw [hgw] at hw2; cases hw2
              exact Or.inr ⟨w2, by
                rw [get?_set_ne2 _ _ _ _ (fun hc => hww hc.symm)]; exact hw2⟩
          · subst hi2
            exact Or.inr ⟨w, by rw [List.get?_set_eq_of_lt _ hwlt]⟩
        · intro w2 hw2
          dsimp only at hw2
          by_cases hww : w2 = w
          · subst hww
            rw [List.get?_set_eq_of_lt _ hwlt] at hw2
            cases hw2
          · rw [get?_set_ne2 _ _ _ _ (fun hc => hww hc.symm)] at hw2
            exact Nat.le_succ_of_le (hfin w2 hw2)
      · rw [if_neg hn]
        refine ⟨by simp [hwl], hrl, ?_, ?_, ?_⟩
        · intro w2 i hw2
          dsimp only at hw2
          by_cases hww : w2 = w
          · subst hww
            rw [List.get?_set_eq_of_lt _ hwlt] at hw2
            cases hw2
          · rw [get?_set_ne2 _ _ _ _ (fun hc => hww hc.symm)] at hw2
            exact hbusy w2 i hw2
        · intro i a hia hi
          dsimp only at hi ⊢
          rcases hres i a hia hi with hl | ⟨w2, hw2⟩
          · exact Or.inl hl
          · have hww : w2 ≠ w := by
              intro hc; subst hc
              rw [hgw] at hw2; cases hw2
            exact Or.inr ⟨w2, by
              rw [get?_set_ne2 _ _ _ _ (fun hc => hww hc.symm)]; exact hw2⟩
        · intro w2 hw2
          dsimp only at hw2
          by_cases hww : w2 = w
          · exact Nat.le_of_not_lt hn
          · rw [get?_set_ne2 _ _ _ _ (fun hc => hww hc.symm)] at hw2
            exact hfin w2 hw2
    | busy i =>
      obtain ⟨hin, hil⟩ := hbusy w i hgw
      dsimp only
      cases hia : items.get? i with
      | none =>
        exact ⟨hwl, hrl, hbusy, hres, hfin⟩
      | some a =>
        have hirl : i < st.results.length := by rw [hrl]; exact hil
        refine ⟨by simp [hwl], by simp [hrl], ?_, ?_, ?_⟩
        · intro w2 i2 hw2
          dsimp only at hw2 ⊢
          by_cases hww : w2 = w
          · subst hww
            rw [List.get?_set_eq_of_lt _ hwlt] at hw2
            cases hw2
          · rw [get?_set_ne2 _ _ _ _ (fun hc => hww hc.symm)] at hw2
            exact hbusy w2 i2 hw2
        · intro i2 a2 hia2 hi2
          dsimp only at hi2 ⊢
          by_cases hii : i2 = i
          · subst hii
            have haa : a2 = a := by rw [hia] at hia2; cases hia2; rfl
            subst haa
            exact Or.inl (by rw [List.get?_set_eq_of_lt _ hirl])
          · rcases hres i2 a2 hia2 hi2 with hl | ⟨w2, hw2⟩
            · exact Or.inl (by
                rw [get?_set_ne2 _ _ _ _ (fun hc => hii hc.symm)]; exact hl)
            · have hww : w2 ≠ w := by
                intro hc; subst hc
                rw [hgw] at hw2
                cases hw2
                exact hii rfl
              exact Or.inr ⟨w2, by
                rw [get?_set_ne2 _ _ _ _ (fun hc => hww hc.symm)]; exact hw2⟩
        · intro w2 hw2
          dsimp only at hw2 ⊢
          by_cases hww : w2 = w
          · subst hww
            rw [List.get?_set_eq_of_lt _ hwlt] at hw2
            cases hw2
          · rw [get?_set_ne2 _ _ _ _ (fun hc => hww hc.symm)] at hw2
            exact hfin w2 hw2
    | finished =>
      exact ⟨hwl, hrl, hbusy, hres, hfin⟩

lemma poolFold_inv {α β : Type} (items : List α) (workerFn : α → Nat → β)
    (W : Nat) (sched : List Nat) :
    ∀ st : PoolState β, PoolInv items workerFn W st →
      PoolInv items workerFn W (sched.foldl (poolStep items workerFn) st) := by
  induction sched with
  | nil => intro st h; exact h
  | cons w rest ih =>
    intro st h
    exact ih _ (poolStep_inv items workerFn W st w h)

lemma poolInit_inv {α β : Type} (items : List α) (workerFn : α → Nat → β) (W : Nat) :
    PoolInv items workerFn W (poolInit β items.length W) := by
  refine ⟨by simp [poolInit], by simp [poolInit], ?_, ?_, ?_⟩
  · intro w i hw
    have hmem := List.get?_mem hw
    simp only [poolInit] at hmem
    rw [List.mem_replicate] at hmem
    cases hmem.2
  · intro i a _ hi
    simp only [poolInit] at hi
    exact absurd hi (Nat.not_lt_zero i)
  · intro w hw
    have hmem := List.get?_mem hw
    simp only [poolInit] at hmem
    rw [List.mem_replicate] at hmem
    cases hmem.2

/-- C4: under every scheduler interleaving the pool keeps at most W items
in flight (there are only W workers, each holding at most one item); and
once every worker has finished (the condition for Promise.all to resolve)
every item has been attempted and results[i] holds the value computed for
items[i], independent of completion order. -/
theorem runWithWorkerPool_bounded_and_indexed {α β : Type} (items : List α)
    (W : Nat) (workerFn : α → Nat → β) (sched : List Nat) (hW : 1 ≤ W) :
    busyCount (runWithWorkerPool items W workerFn sched).workers ≤ W ∧
    (allFinished (runWithWorkerPool items W workerFn sched).workers = true →
      items.length ≤ (runWithWorkerPool items W workerFn sched).nextIndex ∧
      ∀ i a, items.get? i = some a →
        (runWithWorkerPool items W workerFn sched).results.get? i
          = some (some (workerFn a i))) := by
  have hinv := poolFold_inv items workerFn W sched (poolInit β items.length W)
    (poolInit_inv items workerFn W)
  obtain ⟨hwl, hrl, hbusy, hres, hfin⟩ := hinv
  set final := runWithWorkerPool items W workerFn sched with hf
  have hfold : final = sched.foldl (poolStep items workerFn) (poolInit β items.length W) := rfl
  constructor
  · calc busyCount final.workers ≤ final.workers.length := List.length_filter_le _ _
    _ = W := by rw [← hfold] at hwl; exact hwl
  · intro hall
    rw [← hfold] at hwl hrl hbusy hres hfin
    have hallmem : ∀ s ∈ final.workers, s = WStatus.finished := by
      intro s hs
      have := List.all_eq_true.mp hall s hs
      exact of_decide_eq_true this
    have hlen : items.length ≤ final.nextIndex := by
      have h0 : ∃ s, final.workers.get? 0 = some s := by
        cases hg : final.workers.get? 0 with
        | none =>
          rw [List.get?_eq_none] at hg
          rw [hwl] at hg
          omega
        | some s => exact ⟨s, rfl⟩
      obtain ⟨s, hs⟩ := h0
      have hsf : s = WStatus.finished := hallmem s (List.get?_mem hs)
      subst hsf
      exact hfin 0 hs
    refine ⟨hlen, ?_⟩
    intro i a hia
    have hi : i < items.length := by
      rcases List.get?_eq_some.mp hia with ⟨h1, _⟩; exact h1
    rcases hres i a hia (lt_of_lt_of_le hi hlen) with hl | ⟨w2, hw2⟩
    · exact hl
    · have := hallmem _ (List.get?_mem hw2)
      cases this

theorem runWithWorkerPool_bounded_and_indexed_witness :
    (runWithWorkerPool [10, 20, 30] 2 (fun x i => x + i)
      [0, 0, 0, 0, 0, 0, 0, 1]).results.get? 1 = some (some 21) :=
  ((runWithWorkerPool_bounded_and_indexed [10, 20, 30] 2 (fun x i => x + i)
      [0, 0, 0, 0, 0, 0, 0, 1] (by decide)).2 (by decide)).2 1 20 (by decide)

-- -----------------------
-- Progress percent trace (src/server.js lines 887-896, 928-1100)
-- -----------------------

/-- Math.round of num/den over the naturals (exact rationals model the JS
floats; den = 0 cannot occur at the call sites, both divide by a maximum
with 1 or by the clamped maxPages). -/
def jsRound (num den : Nat) : Nat := (2 * num + den) / (2 * den)

/-- The crawl onProgress percent of runPdfJob:
6 + min(18, round((current / total) * 18)). -/
def crawlPct (tot cur : Nat) : Nat := 6 + min 18 (jsRound (cur * 18) tot)

/-- The extraction-phase percent:
24 + round((completed / max(1, total)) * 56). -/
def extractPct (tot c : Nat) : Nat := 24 + jsRound (c * 56) (max 1 tot)

inductive PdfMode
  | single
  | listMode
  | site

/-- The percent fields of the updateJob calls a runPdfJob run makes while
status is running, in program order: job creation (1), browser start (2),
then per mode the queue message (8) or the crawl banner (6), the crawl
progress callbacks, the post-crawl banner (24), the per-page extraction
updates (each reading the shared completed counter, whose successive
snapshots crawlCs and extCs are non-decreasing because the counter only
increments), and the PDF-build banner (86).  The terminal done/error
updates carry a non-running status and are outside the claim. -/
def pdfRunningTrace (mode : PdfMode) (crawlTot : Nat) (crawlCs : List Nat)
    (extTot : Nat) (extCs : List Nat) : List Nat :=
  match mode with
  | .single => [1, 2, 8] ++ extCs.map (extractPct extTot) ++ [86]
  | .listMode => [1, 2, 8] ++ extCs.map (extractPct extTot) ++ [86]
  | .site => [1, 2, 6] ++ crawlCs.map (crawlPct crawlTot) ++ [24]
      ++ extCs.map (extractPct extTot) ++ [86]

lemma jsRound_mono (d n1 n2 : Nat) (h : n1 ≤ n2) : jsRound n1 d ≤ jsRound n2 d :=
  Nat.div_le_div_right (by omega)

lemma crawlPct_mono (tot c1 c2 : Nat) (h : c1 ≤ c2) :
    crawlPct tot c1 ≤ crawlPct tot c2 := by
  unfold crawlPct
  have := jsRound_mono tot (c1 * 18) (c2 * 18) (Nat.mul_le_mul_right _ h)
  omega

lemma extractPct_mono (tot c1 c2 : Nat) (h : c1 ≤ c2) :
    extractPct tot c1 ≤ extractPct tot c2 := by
  unfold extractPct
  have := jsRound_mono (max 1 tot) (c1 * 56) (c2 * 56) (Nat.mul_le_mul_right _ h)
  omega

lemma crawlPct_bounds (tot c : Nat) : 6 ≤ crawlPct tot c ∧ crawlPct tot c ≤ 24 := by
  unfold crawlPct
  have : min 18 (jsRound (c * 18) tot) ≤ 18 := min_le_left _ _
  omega

lemma extractPct_bounds (tot c : Nat) (hc : c ≤ tot) :
    24 ≤ extractPct tot c ∧ extractPct tot c ≤ 80 := by
  unfold extractPct
  have h1 : jsRound (c * 56) (max 1 tot) ≤ 56 := by
    unfold jsRound
    have hM : 1 ≤ max 1 tot := le_max_left _ _
    have hcM : c ≤ max 1 tot := le_trans hc (le_max_right _ _)
    set M := max 1 tot with hMdef
    have hden : 0 < 2 * M := by omega
    have hlt : 2 * (c * 56) + M < 57 * (2 * M) := by omega
    have := (Nat.div_lt_iff_lt_mul hden).mpr hlt
    omega
  omega

lemma chain_append_le (l1 l2 : List Nat) (h1 : List.Chain' (· ≤ ·) l1)
    (h2 : List.Chain' (· ≤ ·) l2) (hb : ∀ x ∈ l1, ∀ y ∈ l2, x ≤ y) :
    List.Chain' (· ≤ ·) (l1 ++ l2) := by
  apply List.Chain'.append h1 h2
  intro x hx y hy
  exact hb x (List.mem_of_mem_getLast? hx) y (List.mem_of_mem_head? hy)

lemma chain_map_mono (f : Nat → Nat) (l : List Nat)
    (hf : ∀ a b, a ≤ b → f a ≤ f b) (h : List.Chain' (· ≤ ·) l) :
    List.Chain' (· ≤ ·) (l.map f) := by
  rw [List.chain'_map]
  exact List.Chain'.imp (fun a b hab => hf a b hab) h

lemma chain3 (a b c : Nat) (h1 : a ≤ b) (h2 : b ≤ c) :
    List.Chain' (· ≤ ·) [a, b, c] := by
  simp [List.chain'_cons, h1, h2]

lemma mem3_le {x a b c K : Nat} (h : x ∈ ([a, b, c] : List Nat))
    (ha : a ≤ K) (hb : b ≤ K) (hc2 : c ≤ K) : x ≤ K := by
  rcases (by simpa using h : x = a ∨ x = b ∨ x = c) with rfl | rfl | rfl <;> assumption

/-- C7: the percent values of the progress events emitted while a PDF job
is running form a non-decreasing sequence, for every mode, page totals, and
every pair of non-decreasing counter-snapshot sequences (the extraction
snapshots never exceed the page total). -/
theorem pdf_percent_monotone (mode : PdfMode) (crawlTot : Nat)
    (crawlCs : List Nat) (extTot : Nat) (extCs : List Nat)
    (hcr : List.Chain' (· ≤ ·) crawlCs)
    (hex : List.Chain' (· ≤ ·) extCs)
    (hbound : ∀ c ∈ extCs, c ≤ extTot) :
    List.Chain' (· ≤ ·) (pdfRunningTrace mode crawlTot crawlCs extTot extCs) := by
  have hextmem : ∀ y ∈ extCs.map (extractPct extTot), 24 ≤ y ∧ y ≤ 80 := by
    intro y hy
    obtain ⟨c, hc, rfl⟩ := List.mem_map.mp hy
    exact extractPct_bounds extTot c (hbound c hc)
  have hextchain : List.Chain' (· ≤ ·) (extCs.map (extractPct extTot)) :=
    chain_map_mono _ _ (extractPct_mono extTot) hex
  have hcrawlmem : ∀ y ∈ crawlCs.map (crawlPct crawlTot), 6 ≤ y ∧ y ≤ 24 := by
    intro y hy
    obtain ⟨c, hc, rfl⟩ := List.mem_map.mp hy
    exact crawlPct_bounds crawlTot c
  have hcrawlchain : List.Chain' (· ≤ ·) (crawlCs.map (crawlPct crawlTot)) :=
    chain_map_mono _ _ (crawlPct_mono crawlTot) hcr
  have hflat : List.Chain' (· ≤ ·)
      ([1, 2, 8] ++ extCs.map (extractPct extTot) ++ [86]) := by
    apply chain_append_le
    · apply chain_append_le
      · exact chain3 1 2 8 (by omega) (by omega)
      · exact hextchain
      · intro x hx y hy
        have h24 := (hextmem y hy).1
        have hx8 : x ≤ 8 := mem3_le hx (by omega) (by omega) (by omega)
        omega
    · exact List.chain'_singleton 86
    · intro x hx y hy
      have hy86 : y = 86 := by simpa using hy
      subst hy86
      rcases List.mem_append.mp hx with h | h
      · exact le_trans (mem3_le h (by omega) (by omega) (le_refl 8)) (by omega)
      · exact le_trans (hextmem x h).2 (by omega)
  cases mode with
  | single => exact hflat
  | listMode => exact hflat
  | site =>
    unfold pdfRunningTrace
    apply chain_append_le
    · apply chain_append_le
      · apply chain_append_le
        · apply chain_append_le
          · exact chain3 1 2 6 (by omega) (by omega)
          · exact hcrawlchain
          · intro x hx y hy
            have h6 := (hcrawlmem y hy).1
            have hx6 : x ≤ 6 := mem3_le hx (by omega) (by omega) (le_refl 6)
            omega
        · exact List.chain'_singleton 24
        · intro x hx y hy
          have hy24 : y = 24 := by simpa using hy
          subst hy24
          rcases List.mem_append.mp hx with h | h
          · exact le_trans (mem3_le h (by omega) (by omega) (le_refl 6)) (by omega)
          · exact (hcrawlmem x h).2
      · exact hextchain
      · intro x hx y hy
        have h24 := (hextmem y hy).1
        rcases List.mem_append.mp hx with h | h
        · rcases List.mem_append.mp h with h2 | h2
          · exact le_trans (mem3_le h2 (by omega) (by omega) (le_refl 6)) (by omega)
          · exact le_trans (hcrawlmem x h2).2 (by omega)
        · have hx24 : x = 24 := by simpa using h
          omega
    · exact List.chain'_singleton 86
    · intro x hx y hy
      have hy86 : y = 86 := by simpa using hy
      subst hy86
      rcases List.mem_append.mp hx with h | h
      · rcases List.mem_append.mp h with h2 | h2
        · rcases List.mem_append.mp h2 with h3 | h3
          · exact le_trans (mem3_le h3 (by omega) (by omega) (le_refl 6)) (by omega)
          · exact le_trans (hcrawlmem x h3).2 (by omega)
        · have hx24 : x = 24 := by simpa using h2
          omega
      · exact le_trans (hextmem x h).2 (by omega)

theorem pdf_percent_monotone_witness :
    List.Chain' (· ≤ ·) (pdfRunningTrace .site 25 [1, 2, 3] 3 [0, 0, 1, 2]) :=
  pdf_percent_monotone .site 25 [1, 2, 3] 3 [0, 0, 1, 2]
    (by simp [List.chain'_cons]) (by simp [List.chain'_cons]) (by decide)

-- -----------------------
-- Text extraction selection (src/server.js lines 203-216, 453-455, 501-545)
-- -----------------------

/-- One global pass of replace of tag-regex by a space: at a left angle
bracket, one or more non-gt characters followed by gt form a tag; an
unclosed or empty bracket is kept and scanning continues.  Fuelled by the
input length (each step consumes at least one character). -/
def stripTagsF : Nat → Str → Str
  | 0, s => s
  | _, [] => []
  | fuel + 1, c :: rest =>
    if c = '<' then
      let inside := rest.takeWhile (fun x => x ≠ '>')
      match rest.dropWhile (fun x => x ≠ '>') with
      | '>' :: rest2 =>
        if inside = [] then c :: stripTagsF fuel rest
        else ' ' :: stripTagsF fuel rest2
      | _ => c :: stripTagsF fuel rest
    else c :: stripTagsF fuel rest

def stripTags (s : Str) : Str := stripTagsF s.length s

/-- Collapse runs of whitespace to one space (the JS whitespace class is
modelled by its ASCII members, the ones these pages produce). -/
def collapseWsAux : Bool → Str → Str
  | _, [] => []
  | prevWs, c :: rest =>
    if isWsChar c then
      if prevWs then collapseWsAux true rest
      else ' ' :: collapseWsAux true rest
    else c :: collapseWsAux false rest

def collapseWs (s : Str) : Str := collapseWsAux false s

/-- stripTagsToTextLen (src/server.js lines 453-455). -/
def stripTagsToTextLen (html : Str) : Nat :=
  (trimWs (collapseWs (stripTags html))).length

/-- looksLikeCloudflare (src/server.js lines 203-216). -/
def looksLikeCloudflare (title textOrHtml : Str) : Bool :=
  let t := toLowerL title
  let s := toLowerL textOrHtml
  isInfixL (str "just a moment") t || isInfixL (str "just a moment") s ||
  isInfixL (str "verify you are human") s || isInfixL (str "verification successful") s ||
  isInfixL (str "waiting for") s || isInfixL (str "cdn-cgi") s ||
  isInfixL (str "challenge-platform") s || isInfixL (str "cf-browser-verification") s

structure PageData where
  title : Str
  contentHtml : Str
deriving DecidableEq, Repr

structure SectionOut where
  title : Str
  url : Str
  html : Str
deriving DecidableEq, Repr

/-- extractSectionAuto (src/server.js lines 501-545), as a function of the
two extracted page snapshots.  render models the markdown round trip
(turndown then md.render, an out-of-scope collaborator); cfPassed models
waitOutCloudflare succeeding within its budget on the safe page; the JS
falsy-title default is the literal pagina. -/
def extractSectionAuto (minTextChars : Nat) (render : Str → Str) (cfPassed : Bool)
    (url : Str) (fastData safeData : PageData) : Except Str SectionOut :=
  let fastTextLen := stripTagsToTextLen fastData.contentHtml
  let fastLooksCf := looksLikeCloudflare fastData.title (fastData.contentHtml.take 8000)
  if fastLooksCf = false ∧ minTextChars ≤ fastTextLen then
    .ok ⟨if fastData.title = [] then str "pagina" else fastData.title, url,
      render fastData.contentHtml⟩
  else if cfPassed = false then
    .error (str "Cloudflare non superato entro il tempo massimo")
  else
    let safeTextLen := stripTagsToTextLen safeData.contentHtml
    let useSafe := fastLooksCf = true ∨ fastTextLen < safeTextLen
    let chosen := if useSafe then safeData else fastData
    .ok ⟨if chosen.title = [] then str "pagina" else chosen.title, url,
      render chosen.contentHtml⟩

/-- C8 as frozen is false: when the fast pass is detected as an
interstitial the safe pass is kept even when the fast pass has strictly
more text, so the extractor does not keep whichever pass yields more
text. -/
theorem extractSectionAuto_counterexample :
    looksLikeCloudflare (str "Just a moment...")
      ((str "a longer body of plain text for the fast pass").take 8000) = true ∧
    stripTagsToTextLen (str "ok") <
      stripTagsToTextLen (str "a longer body of plain text for the fast pass") ∧
    extractSectionAuto 200 id true (str "http://x/")
      ⟨str "Just a moment...", str "a longer body of plain text for the fast pass"⟩
      ⟨str "Safe", str "ok"⟩
      = .ok ⟨str "Safe", str "http://x/", str "ok"⟩ := by
  refine ⟨by decide, by decide, by rfl⟩

/-- C8 amended: when the fast pass is clean and long enough it is returned
without the safe pass; in the fallback triggered by a short clean fast pass
the extractor keeps whichever pass yields more text (the fast pass on
ties); but when the fast pass is detected as an interstitial the safe pass
is always kept, regardless of which pass has more text. -/
theorem extractSectionAuto_selection (minTextChars : Nat) (render : Str → Str)
    (url : Str) (fastData safeData : PageData) :
    (looksLikeCloudflare fastData.title (fastData.contentHtml.take 8000) = false →
      minTextChars ≤ stripTagsToTextLen fastData.contentHtml →
      ∀ cf : Bool, extractSectionAuto minTextChars render cf url fastData safeData =
        .ok ⟨if fastData.title = [] then str "pagina" else fastData.title, url,
          render fastData.contentHtml⟩) ∧
    (looksLikeCloudflare fastData.title (fastData.contentHtml.take 8000) = false →
      stripTagsToTextLen fastData.contentHtml < minTextChars →
      extractSectionAuto minTextChars render true url fastData safeData =
        (if stripTagsToTextLen fastData.contentHtml < stripTagsToTextLen safeData.contentHtml
         then .ok ⟨if safeData.title = [] then str "pagina" else safeData.title, url,
           render safeData.contentHtml⟩
         else .ok ⟨if fastData.title = [] then str "pagina" else fastData.title, url,
           render fastData.contentHtml⟩)) ∧
    (looksLikeCloudflare fastData.title (fastData.contentHtml.take 8000) = true →
      extractSectionAuto minTextChars render true url fastData safeData =
        .ok ⟨if safeData.title = [] then str "pagina" else safeData.title, url,
          render safeData.contentHtml⟩) := by
  refine ⟨?_, ?_, ?_⟩
  · intro hcf hlen cf
    unfold extractSectionAuto
    rw [if_pos ⟨hcf, hlen⟩]
  · intro hcf hlen
    have hnotcf : ¬ (looksLikeCloudflare fastData.title (fastData.contentHtml.take 8000) = true) := by
      rw [hcf]; simp
    unfold extractSectionAuto
    rw [if_neg (fun hc => absurd hc.2 (not_le.mpr hlen))]
    rw [if_neg (by simp)]
    dsimp only
    by_cases hcmp : stripTagsToTextLen fastData.contentHtml < stripTagsToTextLen safeData.contentHtml
    · have hsel : (if (looksLikeCloudflare fastData.title (fastData.contentHtml.take 8000) = true ∨
          stripTagsToTextLen fastData.contentHtml < stripTagsToTextLen safeData.contentHtml)
          then safeData else fastData) = safeData := if_pos (Or.inr hcmp)
      rw [if_pos hcmp, hsel]
    · have hsel : (if (looksLikeCloudflare fastData.title (fastData.contentHtml.take 8000) = true ∨
          stripTagsToTextLen fastData.contentHtml < stripTagsToTextLen safeData.contentHtml)
          then safeData else fastData) = fastData := if_neg (fun hor => hor.elim hnotcf hcmp)
      rw [if_neg hcmp, hsel]
  · intro hcf
    unfold extractSectionAuto
    rw [if_neg (fun hc => by simp [hcf] at hc)]
    rw [if_neg (by simp)]
    dsimp only
    have hsel : (if (looksLikeCloudflare fastData.title (fastData.contentHtml.take 8000) = true ∨
        stripTagsToTextLen fastData.contentHtml < stripTagsToTextLen safeData.contentHtml)
        then safeData else fastData) = safeData := if_pos (Or.inl hcf)
    rw [hsel]

theorem extractSectionAuto_selection_witness :
    extractSectionAuto 200 id true (str "http://x/")
      ⟨str "Just a moment...", str "a longer body of plain text for the fast pass"⟩
      ⟨str "Safe", str "ok"⟩
      = .ok ⟨if (str "Safe") = [] then str "pagina" else str "Safe", str "http://x/",
        id (str "ok")⟩ :=
  (extractSectionAuto_selection 200 id (str "http://x/")
    ⟨str "Just a moment...", str "a longer body of plain text for the fast pass"⟩
    ⟨str "Safe", str "ok"⟩).2.2 (by decide)
